import Mathlib

/-!
Verification development for the DSPFinalFIFA similarity-search core.

The definitions below are a shallow embedding of the Python sources
`FIFA/DTW.py` and `FIFA/TF_IDF.py` (plus the behaviour of the `fastdtw`
library dependency that `DTW.py` requires at import time).

Modelling conventions:
* Python floats are modelled as `ℝ`; `float('inf')` is modelled with
  `WithTop ℝ` (the code never produces NaN or `-inf` on the paths embedded
  here, except inside `max(0, 1 - inf/150)`, which is modelled explicitly).
* Coordinates and the fixed penalty tables are exact rationals `ℚ`.
* Python dict keys that may be absent are modelled with `Option`; a key
  that is present with a falsy value (`None`, `''`, `{}`, `[]`) behaves in
  the embedded code paths exactly like the collapsed representative noted
  at each definition.
* `sqrt(dx^2+dy^2) <= r` comparisons are embedded as `dx^2+dy^2 <= r^2`
  (equivalent for `0 <= r`, proved in `within_radius_correct`), so that the
  filters stay decidable; distances themselves use `Real.sqrt`.
-/

namespace DSPFIFA

/-! ### DTW.py: event type similarity -/

/-- `EVENT_GROUPS` table of `DTW.py` (similarity groups of event type codes). -/
def EVENT_GROUPS : List (String × List String) :=
  [("passing",   ["PA", "CR", "FK", "CK", "TI", "GK"]),
   ("shooting",  ["SH", "PK"]),
   ("control",   ["IT", "RE", "TO", "CA"]),
   ("dribbling", ["DR", "CA"]),
   ("defensive", ["CL", "RE"])]

/-- `_get_event_group` of `DTW.py`: the group names an event type belongs to,
or the sentinel list `["other"]` when it belongs to none. -/
def get_event_group (event_type : String) : List String :=
  let groups := (EVENT_GROUPS.filter (fun g => g.2.contains event_type)).map Prod.fst
  if groups.isEmpty then ["other"] else groups

/-- `event_type_penalty` of `DTW.py`. -/
def event_type_penalty (type1 type2 : String) : ℚ :=
  if type1 = type2 then 0
  else if type1 = "" ∨ type2 = "" then 5
  else
    let groups1 := get_event_group type1
    let groups2 := get_event_group type2
    if groups1.inter groups2 ≠ [] then 2
    else if ("shooting" ∈ groups1 ∧ "defensive" ∈ groups2)
          ∨ ("defensive" ∈ groups1 ∧ "shooting" ∈ groups2) then 10
    else 5

/-- `pass_type_penalty` of `DTW.py`. -/
def pass_type_penalty (type1 type2 : String) : ℚ :=
  if type1 = type2 then 0
  else if type1 = "" ∨ type2 = "" then 2
  else if (type1 = "S" ∧ type2 = "L") ∨ (type1 = "L" ∧ type2 = "S") then 3
  else 3/2

/-- `shot_type_penalty` of `DTW.py`. -/
def shot_type_penalty (type1 type2 : String) : ℚ :=
  if type1 = type2 then 0
  else if type1 = "" ∨ type2 = "" then 2
  else 2

/-- `pressure_type_penalty` of `DTW.py`. -/
def pressure_type_penalty (type1 type2 : String) : ℚ :=
  if type1 = type2 then 0
  else if type1 = "" ∨ type2 = "" then 1
  else if (type1 = "N" ∧ type2 = "A") ∨ (type1 = "A" ∧ type2 = "N") then 3
  else 3/2

/-! ### DTW.py: geometry and event data -/

/-- `euclidean_distance` of `DTW.py` (`math.sqrt((x2-x1)**2 + (y2-y1)**2)`). -/
noncomputable def euclidean_distance (x1 y1 x2 y2 : ℚ) : ℝ :=
  Real.sqrt (((x2 - x1) ^ 2 + (y2 - y1) ^ 2 : ℚ) : ℝ)

/-- A player entry of a `homePlayers`/`awayPlayers` list: `x`/`y` are read with
`.get('x', 0)` defaults in the source, `playerId` may be absent. -/
structure PlayerPos where
  x : ℚ := 0
  y : ℚ := 0
  playerId : Option ℤ := none
deriving DecidableEq

/-- One raw event record (a play dict produced by `Match.get_all_plays`), with
exactly the keys the embedded code paths read.  `none` means the key is
absent; a key present with a falsy value behaves identically to the collapsed
representative (`some ""` for strings) in every embedded code path. -/
structure Event where
  eventType : Option String := none
  eventLabel : Option String := none
  setpieceType : Option String := none
  setpieceLabel : Option String := none
  outcome : Option String := none
  isGoal : Bool := false
  /-- processed-format ball position dict (`none` = absent/`None`/empty dict) -/
  ballPosition : Option (ℚ × ℚ) := none
  /-- raw-format positional list `ball` -/
  ball : List (ℚ × ℚ) := []
  /-- `possessionEvents.possessionEventType` -/
  possessionEventType : Option String := none
  /-- `possessionEvents.passType` / `shotType` / `pressureType` -/
  possPassType : Option String := none
  possShotType : Option String := none
  possPressureType : Option String := none
  passType : Option String := none
  shotType : Option String := none
  pressureType : Option String := none
  homePlayers : List PlayerPos := []
  awayPlayers : List PlayerPos := []
  playerId : Option ℤ := none
  playerName : String := ""
  teamId : String := ""
  teamName : String := ""
  secondaryPlayer : Option String := none
  secondaryPlayerId : Option ℤ := none
  keyPlayerIds : List ℤ := []
  time : String := ""
  sequence : Option ℤ := none
  index : Option ℤ := none
  eventId : Option ℤ := none
  period : Option ℤ := none
deriving DecidableEq

/-- `_get_event_field` of `DTW.py`: `event[field] or ''` when the key is
present, otherwise the `possessionEvents` fallback (`or ''`). -/
def get_event_field (primary fallback : Option String) : String :=
  match primary with
  | some s => s
  | none => fallback.getD ""

/-- `get_event_type` of `DTW.py`. -/
def get_event_type (e : Event) : String :=
  get_event_field e.eventType e.possessionEventType

/-- `get_pass_type` of `DTW.py`. -/
def get_pass_type (e : Event) : String :=
  get_event_field e.passType e.possPassType

/-- `get_shot_type` of `DTW.py`. -/
def get_shot_type (e : Event) : String :=
  get_event_field e.shotType e.possShotType

/-- `get_pressure_type` of `DTW.py`. -/
def get_pressure_type (e : Event) : String :=
  get_event_field e.pressureType e.possPressureType

/-- `get_ball_position` of `DTW.py`: prefer the processed `ballPosition`
dict, fall back to the raw `ball` list, default `(0, 0)`. -/
def get_ball_position (e : Event) : ℚ × ℚ :=
  match e.ballPosition with
  | some p => p
  | none =>
    match e.ball with
    | [] => (0, 0)
    | b :: _ => b

/-- `NEAR_BALL_RADIUS` of `DTW.py` / `TF_IDF.py`. -/
def NEAR_BALL_RADIUS : ℚ := 15

/-- The comparison `euclidean_distance(px, py, bx, by) <= radius`, embedded on
squares to remain decidable (equivalent for nonnegative radius, see
`within_radius_correct`). -/
def within_radius (px py bx bpy r : ℚ) : Bool :=
  decide ((bx - px) ^ 2 + (bpy - py) ^ 2 ≤ r ^ 2)

/-- `get_near_ball_players` of `DTW.py`: positions of home then away players
within the radius of the ball. -/
def get_near_ball_players (e : Event) (ball_x ball_y : ℚ) : List (ℚ × ℚ) :=
  (e.homePlayers.filter (fun p => within_radius p.x p.y ball_x ball_y NEAR_BALL_RADIUS)).map
      (fun p => (p.x, p.y))
    ++ (e.awayPlayers.filter (fun p => within_radius p.x p.y ball_x ball_y NEAR_BALL_RADIUS)).map
      (fun p => (p.x, p.y))

/-- A `FeatureRecord`: the dict returned by `extract_event_features`. -/
structure FeatureRec where
  ball_position : ℚ × ℚ := (0, 0)
  event_type : String := ""
  near_players : List (ℚ × ℚ) := []
  pass_type : String := ""
  shot_type : String := ""
  pressure_type : String := ""
deriving DecidableEq

instance : Inhabited FeatureRec := ⟨{}⟩

/-- `extract_event_features` of `DTW.py`. -/
def extract_event_features (e : Event) : FeatureRec :=
  let b := get_ball_position e
  { ball_position := b
    event_type := get_event_type e
    near_players := get_near_ball_players e b.1 b.2
    pass_type := get_pass_type e
    shot_type := get_shot_type e
    pressure_type := get_pressure_type e }

/-! ### DTW.py: distance functions -/

/-- The inner loop of `_avg_nearest_distance`: `min_dist` starts at
`float('inf')` and is folded with the distances to each target. -/
noncomputable def nearest_distance (src : ℚ × ℚ) (target : List (ℚ × ℚ)) : WithTop ℝ :=
  target.foldl (fun m t => min m ((euclidean_distance src.1 src.2 t.1 t.2 : ℝ) : WithTop ℝ)) ⊤

/-- `_avg_nearest_distance` of `DTW.py`: `total_dist / len(source)` (for the
empty `source` the Python raises `ZeroDivisionError`; the only caller
guarantees nonemptiness, and the embedding maps the division over the total). -/
noncomputable def avg_nearest_distance (source target : List (ℚ × ℚ)) : WithTop ℝ :=
  (source.foldl (fun tot s => tot + nearest_distance s target) 0).map
    (fun x => x / (source.length : ℝ))

/-- `player_formation_distance` of `DTW.py`. -/
noncomputable def player_formation_distance (players1 players2 : List (ℚ × ℚ)) : WithTop ℝ :=
  if players1 = [] ∨ players2 = [] then
    (if players1 = [] ∧ players2 = [] then 0 else 10)
  else
    (avg_nearest_distance players1 players2 + avg_nearest_distance players2 players1).map
      (fun x => x / 2)

/-- The optional-feature toggles (`config.get(..., False)` lookups). -/
structure Config where
  pass_type : Bool := false
  shot_type : Bool := false
  pressure_type : Bool := false
deriving DecidableEq

/-- `OPTIONAL_FEATURES` of `DTW.py` (all optional features disabled). -/
def OPTIONAL_FEATURES : Config := {}

/-- `WEIGHTS` of `DTW.py`. -/
def W_ball_position : ℚ := 1
def W_event_type : ℚ := 1
def W_player_formation : ℚ := 1
def W_pass_type : ℚ := 1/2
def W_shot_type : ℚ := 1/2
def W_pressure_type : ℚ := 3/10

/-- `event_distance` of `DTW.py`: the weighted sum of sub-costs. -/
noncomputable def event_distance (f1 f2 : FeatureRec) (config : Config) : WithTop ℝ :=
  (((W_ball_position : ℝ) * euclidean_distance f1.ball_position.1 f1.ball_position.2
      f2.ball_position.1 f2.ball_position.2 : ℝ) : WithTop ℝ)
  + (((W_event_type : ℝ) * (event_type_penalty f1.event_type f2.event_type : ℝ) : ℝ) : WithTop ℝ)
  + ((W_player_formation : ℝ) : WithTop ℝ) * player_formation_distance f1.near_players f2.near_players
  + (if config.pass_type then
      (((W_pass_type * pass_type_penalty f1.pass_type f2.pass_type : ℚ) : ℝ) : WithTop ℝ) else 0)
  + (if config.shot_type then
      (((W_shot_type * shot_type_penalty f1.shot_type f2.shot_type : ℚ) : ℝ) : WithTop ℝ) else 0)
  + (if config.pressure_type then
      (((W_pressure_type * pressure_type_penalty f1.pressure_type f2.pressure_type : ℚ) : ℝ) : WithTop ℝ) else 0)

/-! ### The fastdtw dependency

`DTW.py` delegates the alignment itself to the `fastdtw` pip package (a hard
requirement: the module raises `ImportError` without it).  The definitions
below embed that library's `__dtw`, `__reduce_by_half`, `__expand_window` and
`__fastdtw` functions as used by `dtw_distance` (inputs are the index arrays
`np.arange(n).reshape(-1,1)`, whose element values are embedded as `ℚ`, and
the custom `dist` callback; the default radius is 1). -/

/-- One cell of the `__dtw` cost dict `D` in shifted coordinates: the running
cost and the stored predecessor.  The `defaultdict` default `(inf,)` (whose
predecessor access raises `IndexError`) is `(⊤, none)`. -/
def DtwCell : Type := WithTop ℝ × Option (ℕ × ℕ)

/-- The initial `D`: `D[0,0] = (0, 0, 0)`, everything else the default. -/
noncomputable def dtwInit : ℕ × ℕ → DtwCell :=
  fun p => if p = (0, 0) then ((0 : WithTop ℝ), some (0, 0)) else (⊤, none)

/-- One `__dtw` loop body at window cell `(i, j)` (unshifted): Python's
`min((D[i,j+1?]...), key=a[0])` keeps the first minimal entry, i.e. it
replaces the running best only on strict decrease, scanning the candidates
in the order `(i, j+1)`-row, `(i+1, j)`-column, `(i, j)`-diagonal
(shifted-coordinate predecessors of `(i+1, j+1)`). -/
noncomputable def dtwCell (D : ℕ × ℕ → DtwCell) (dt : WithTop ℝ) (i j : ℕ) : DtwCell :=
  let a : WithTop ℝ × (ℕ × ℕ) := ((D (i, j + 1)).1 + dt, (i, j + 1))
  let b : WithTop ℝ × (ℕ × ℕ) := ((D (i + 1, j)).1 + dt, (i + 1, j))
  let c : WithTop ℝ × (ℕ × ℕ) := ((D (i, j)).1 + dt, (i, j))
  let best1 := if b.1 < a.1 then b else a
  let best := if c.1 < best1.1 then c else best1
  (best.1, some best.2)

/-- The `__dtw` main loop: fold the window cells (unshifted coordinates),
updating `D` at the shifted cell `(i+1, j+1)`. -/
noncomputable def runDtw (cost : ℕ → ℕ → WithTop ℝ) (window : List (ℕ × ℕ)) :
    ℕ × ℕ → DtwCell :=
  window.foldl
    (fun D ij => fun p =>
      if p = (ij.1 + 1, ij.2 + 1) then dtwCell D (cost ij.1 ij.2) ij.1 ij.2 else D p)
    dtwInit

/-- The `__dtw` backtracking loop, with explicit fuel (the Python loop runs
until `(i, j) = (0, 0)`; a missing predecessor would raise `IndexError`,
modelled as `none`). -/
noncomputable def backtrack (D : ℕ × ℕ → DtwCell) :
    ℕ → ℕ × ℕ → List (ℕ × ℕ) → Option (List (ℕ × ℕ))
  | _, (0, 0), acc => some acc
  | 0, _, _ => none
  | fuel + 1, (i, j), acc =>
    match (D (i, j)).2 with
    | none => none
    | some p => backtrack D fuel p ((i - 1, j - 1) :: acc)

/-- The full window `[(i, j) for i in range(len_x) for j in range(len_y)]`
used by `__dtw` when `window is None`. -/
def fullWindow (n m : ℕ) : List (ℕ × ℕ) :=
  (List.range n).flatMap (fun i => (List.range m).map (fun j => (i, j)))

/-- `__dtw` of fastdtw on sequences of length `n`, `m` with pairwise cost
function `cost` and an optional window: returns `(D[n, m][0], path)` (the
`IndexError` case of backtracking is modelled as an empty path; it is proved
unreachable for the windows fastdtw builds). -/
noncomputable def dtwLow (n m : ℕ) (window : Option (List (ℕ × ℕ)))
    (cost : ℕ → ℕ → WithTop ℝ) : WithTop ℝ × List (ℕ × ℕ) :=
  let win := window.getD (fullWindow n m)
  let D := runDtw cost win
  ((D (n, m)).1, (backtrack D (n + m) (n, m) []).getD [])

/-- `__reduce_by_half` of fastdtw: average consecutive pairs, dropping a
trailing odd element. -/
def reduce_by_half (x : List ℚ) : List ℚ :=
  match x with
  | a :: b :: rest => (a + b) / 2 :: reduce_by_half rest
  | _ => []

/-- The radius neighbourhood loop of `__expand_window` (`radius = 1` in this
code base): `(i + a, j + b)` for `a, b in range(-radius, radius+1)`.  Negative
coordinates are pruned by the final scan in Python; with truncated `ℕ`
subtraction they clamp onto cells the neighbourhood contains anyway. -/
def neighborCells (radius : ℕ) (ij : ℕ × ℕ) : List (ℕ × ℕ) :=
  (List.range (2 * radius + 1)).flatMap
    (fun a => (List.range (2 * radius + 1)).map
      (fun b => (ij.1 + a - radius, ij.2 + b - radius)))

/-- `path_` of `__expand_window`: the coarse path plus its radius
neighbourhood (as a list with multiplicity; only membership is used). -/
def pathNeighborhood (radius : ℕ) (path : List (ℕ × ℕ)) : List (ℕ × ℕ) :=
  path ++ path.flatMap (neighborCells radius)

/-- `window_` of `__expand_window`: each coarse cell expanded to its 2×2
block of fine cells. -/
def blockCells (cells : List (ℕ × ℕ)) : List (ℕ × ℕ) :=
  cells.flatMap
    (fun ij => [(ij.1 * 2, ij.2 * 2), (ij.1 * 2, ij.2 * 2 + 1),
                (ij.1 * 2 + 1, ij.2 * 2), (ij.1 * 2 + 1, ij.2 * 2 + 1)])

/-- The final scan of `__expand_window`: row by row, keep the `window_` cells
from column `start_j` on, and continue the next row from the first kept
column of this row (`start_j = None` with rows remaining would raise
`TypeError` in Python; modelled as stopping, and proved unreachable). -/
def pruneScan (memb : ℕ × ℕ → Bool) (m : ℕ) : List ℕ → ℕ → List (ℕ × ℕ)
  | [], _ => []
  | i :: rest, s =>
    let js := (List.range' s (m - s)).filter (fun j => memb (i, j))
    js.map (fun j => (i, j)) ++
      (match js.head? with
       | none => []
       | some j0 => pruneScan memb m rest j0)

/-- `__expand_window` of fastdtw. -/
def expand_window (path : List (ℕ × ℕ)) (len_x len_y radius : ℕ) : List (ℕ × ℕ) :=
  let windowCells := blockCells (pathNeighborhood radius path)
  pruneScan (fun c => windowCells.contains c) len_y (List.range len_x) 0

/-- `__fastdtw` of fastdtw: recursively coarsen, solve, and refine within the
expanded window.  Sequence elements only matter through `dist`, so the
sequences are carried as their element lists (`ℚ` values: the index arrays
and their successive halvings). -/
noncomputable def fastdtwRec (x y : List ℚ) (radius : ℕ) (dist : ℚ → ℚ → WithTop ℝ) :
    WithTop ℝ × List (ℕ × ℕ) :=
  if h : x.length < radius + 2 ∨ y.length < radius + 2 then
    dtwLow x.length y.length none (fun i j => dist (x.getD i 0) (y.getD j 0))
  else
    let xs := reduce_by_half x
    let ys := reduce_by_half y
    let coarse := fastdtwRec xs ys radius dist
    let window := expand_window coarse.2 x.length y.length radius
    dtwLow x.length y.length (some window) (fun i j => dist (x.getD i 0) (y.getD j 0))
termination_by x.length
decreasing_by
  have key : ∀ n (l : List ℚ), l.length ≤ n → 2 * (reduce_by_half l).length ≤ l.length := by
    intro n
    induction n with
    | zero =>
      intro l hl
      cases l with
      | nil => simp [reduce_by_half]
      | cons a t => simp at hl
    | succ n ih =>
      intro l hl
      cases l with
      | nil => simp [reduce_by_half]
      | cons a t =>
        cases t with
        | nil => simp [reduce_by_half]
        | cons b rest =>
          have hrec := ih rest (by simp only [List.length_cons] at hl; omega)
          simp only [reduce_by_half, List.length_cons]
          omega
  have hk := key x.length x le_rfl
  push_neg at h
  omega

/-- `dtw_distance` of `DTW.py`: empty input gives `(inf, [])`; otherwise run
fastdtw on the index arrays `np.arange(n)` with the `dist_func` callback
(`int(...)` truncation of the nonnegative averaged index values is `⌊·⌋`). -/
noncomputable def dtw_distance (seq1 seq2 : List FeatureRec) (config : Config) :
    WithTop ℝ × List (ℕ × ℕ) :=
  if seq1 = [] ∨ seq2 = [] then (⊤, [])
  else
    fastdtwRec ((List.range seq1.length).map (fun i : ℕ => (i : ℚ)))
      ((List.range seq2.length).map (fun j : ℕ => (j : ℚ))) 1
      (fun a b => event_distance (seq1.getD (Int.floor a).toNat default)
        (seq2.getD (Int.floor b).toNat default) config)

/-! ### Lightweight result payloads -/

/-- Team metadata passed through to results (`to_dict` of `fifa.Team`,
reduced to the fields no embedded code path ever inspects). -/
structure TeamD where
  id : String := ""
  name : String := ""
deriving DecidableEq

/-- `_ensure_key_player_ids` (the identical helper appears in both `DTW.py`
and `TF_IDF.py`): Python's `if player_id and ...` truthiness makes id `0`
behave like an absent id, and `secondaryPlayerId or secondaryPlayer` falls
through to the (string-valued, hence non-`int`) name when the id is falsy. -/
def ensure_key_player_ids (e : Event) : List ℤ :=
  let key0 := e.keyPlayerIds
  let key1 :=
    match e.playerId with
    | some pid => if pid ≠ 0 ∧ pid ∉ key0 then key0 ++ [pid] else key0
    | none => key0
  match e.secondaryPlayerId with
  | some sid => if sid ≠ 0 ∧ sid ∉ key1 then key1 ++ [sid] else key1
  | none => key1

/-- A lightweight event dict: union of the fields produced by
`DTW._lightweight_events` and `TF_IDF._lightweight_event` (each builder fills
only its own source's keys; the `z` ball coordinate, a pure passthrough, is
not modelled since positions are 2-dimensional here). -/
structure LwEvent where
  index : Option ℤ := none
  eventId : Option ℤ := none
  sequence : Option ℤ := none
  time : String := ""
  period : Option ℤ := none
  eventType : Option String := none
  eventLabel : Option String := none
  setpieceType : Option String := none
  setpieceLabel : Option String := none
  teamId : String := ""
  teamName : String := ""
  playerName : String := ""
  playerId : Option ℤ := none
  secondaryPlayer : Option String := none
  outcome : Option String := none
  isGoal : Bool := false
  ballPosition : Option (ℚ × ℚ) := none
  keyPlayerIds : List ℤ := []
  homePlayers : List PlayerPos := []
  awayPlayers : List PlayerPos := []
  passType : Option String := none
  shotType : Option String := none
deriving DecidableEq

/-- `p.get('playerId') in key_ids` (a missing id is never in the list). -/
def player_in_keys (key_ids : List ℤ) (p : PlayerPos) : Bool :=
  match p.playerId with
  | some pid => key_ids.contains pid
  | none => false

/-- `_get_ball_position_dict` of `DTW.py`: dict, then raw-list fallback,
else `None`. -/
def get_ball_position_dict (e : Event) : Option (ℚ × ℚ) :=
  match e.ballPosition with
  | some p => some p
  | none =>
    match e.ball with
    | [] => none
    | b :: _ => some b

/-- `_extract_ball_position` of `TF_IDF.py` (same dict-then-list fallback). -/
def tfidf_extract_ball_position (e : Event) : Option (ℚ × ℚ) :=
  match e.ballPosition with
  | some p => some p
  | none =>
    match e.ball with
    | [] => none
    | b :: _ => some b

/-- The per-event body of `_lightweight_events` in `DTW.py`. -/
def lightweight_event_dtw (e : Event) : LwEvent :=
  let key_ids := ensure_key_player_ids e
  { eventType := some (e.eventType.getD "")
    eventLabel := some (e.eventLabel.getD "")
    playerName := e.playerName
    playerId := e.playerId
    teamId := e.teamId
    teamName := e.teamName
    time := e.time
    ballPosition := get_ball_position_dict e
    isGoal := e.isGoal
    keyPlayerIds := key_ids
    homePlayers := e.homePlayers.filter (player_in_keys key_ids)
    awayPlayers := e.awayPlayers.filter (player_in_keys key_ids)
    passType := some (e.passType.getD "")
    shotType := some (e.shotType.getD "") }

/-- `_lightweight_event` of `TF_IDF.py`. -/
def lightweight_event (e : Event) : LwEvent :=
  let key_ids := ensure_key_player_ids e
  { index := e.index
    eventId := e.eventId
    sequence := e.sequence
    time := e.time
    period := e.period
    eventType := e.eventType
    eventLabel := e.eventLabel
    setpieceType := e.setpieceType
    setpieceLabel := e.setpieceLabel
    teamId := e.teamId
    teamName := e.teamName
    playerName := e.playerName
    playerId := e.playerId
    secondaryPlayer := e.secondaryPlayer
    outcome := e.outcome
    isGoal := e.isGoal
    ballPosition := tfidf_extract_ball_position e
    keyPlayerIds := key_ids
    homePlayers := e.homePlayers.filter (player_in_keys key_ids)
    awayPlayers := e.awayPlayers.filter (player_in_keys key_ids) }

/-! ### DTW.py: the sequence index and the search -/

/-- `TOP_N` of `DTW.py`. -/
def TOP_N : ℕ := 10

/-- `MAX_DISTANCE` of `DTW.py`. -/
def MAX_DISTANCE : ℚ := 150

/-- One `_sequence_index` entry built by `build_sequence_index`. -/
structure DtwIndexEntry where
  matchId : String := ""
  sequenceId : ℤ := 0
  features : List FeatureRec := []
  events : List Event := []
  homeTeam : Option TeamD := none
  awayTeam : Option TeamD := none
  time : String := ""
  setpieceType : String := "Open Play"
deriving DecidableEq

/-- One result dict of `search_similar_sequences_dtw`. -/
structure DtwResult where
  matchId : String
  sequenceId : ℤ
  distance : WithTop ℝ
  similarity : ℝ
  events : List LwEvent
  eventCount : ℕ
  homeTeam : Option TeamD
  awayTeam : Option TeamD
  time : String
  setpieceType : String
  alignmentPath : List (ℕ × ℕ)

/-- The normalization of `search_similar_sequences_dtw`:
`normalized = distance / path_length if path_length > 0 else distance`, then
`similarity = max(0, 1 - normalized / MAX_DISTANCE)`.  When `distance` is
`float('inf')`, Python computes `max(0, -inf) = 0`, which is the `untop'`
default here. -/
noncomputable def dtw_normalized_similarity (distance : WithTop ℝ) (path_length : ℕ) : ℝ :=
  let normalized := if 0 < path_length then distance.map (fun d => d / (path_length : ℝ))
                    else distance
  WithTop.untop' 0 (normalized.map (fun nd => max 0 (1 - nd / ((MAX_DISTANCE : ℚ) : ℝ))))

/-- The per-entry result construction of `search_similar_sequences_dtw`. -/
noncomputable def dtw_result_of (query_features : List FeatureRec) (config : Config)
    (e : DtwIndexEntry) : DtwResult :=
  let dp := dtw_distance query_features e.features config
  { matchId := e.matchId
    sequenceId := e.sequenceId
    distance := dp.1
    similarity := dtw_normalized_similarity dp.1 (max query_features.length e.features.length)
    events := e.events.map lightweight_event_dtw
    eventCount := e.events.length
    homeTeam := e.homeTeam
    awayTeam := e.awayTeam
    time := e.time
    setpieceType := e.setpieceType
    alignmentPath := dp.2 }

/-- The skip-guard of `search_similar_sequences_dtw`:
`if exclude_match_id and exclude_seq_id is not None` (an empty string is
falsy, so it disables the filter). -/
def dtw_exclude_active (exclude_match_id : Option String) (exclude_seq_id : Option ℤ) : Bool :=
  (match exclude_match_id with
   | some s => !(s == "")
   | none => false) && exclude_seq_id.isSome

/-- `search_similar_sequences_dtw` of `DTW.py`, as a pure function of the
already-initialized `_sequence_index` (the `ensure_index_initialized` call it
begins with is modelled by `search_dtw_stateful` below).  The query dict's
`.get('events', [])` is the `query_events` argument. -/
noncomputable def search_similar_sequences_dtw (index : List DtwIndexEntry)
    (query_events : List Event) (top_n : ℕ) (config : Config)
    (exclude_match_id : Option String) (exclude_seq_id : Option ℤ) : List DtwResult :=
  if query_events = [] then []
  else
    let query_features := query_events.map extract_event_features
    let kept := index.filter (fun e =>
      !(dtw_exclude_active exclude_match_id exclude_seq_id
        && decide (some e.matchId = exclude_match_id)
        && decide (some e.sequenceId = exclude_seq_id)))
    let results := kept.map (dtw_result_of query_features config)
    (results.insertionSort (fun a b => a.distance ≤ b.distance)).take top_n

/-! ### TF_IDF.py: pitch zones and text encoding -/

/-- `get_pitch_zone_detailed` of `TF_IDF.py`. -/
def get_pitch_zone_detailed (x y : ℚ) : String :=
  let x_zone := if x < -40 then "own_box"
    else if x < -25 then "def_deep"
    else if x < -10 then "def"
    else if x < 10 then "mid"
    else if x < 25 then "att"
    else if x < 40 then "att_deep"
    else "opp_box"
  let y_zone := if y < -20 then "left_wide"
    else if y < -7 then "left"
    else if y < 7 then "center"
    else if y < 20 then "right"
    else "right_wide"
  x_zone ++ "_" ++ y_zone

/-- `get_players_near_ball` of `TF_IDF.py` (the `distance_2d <= radius`
comparison embedded on squares, as for `within_radius`). -/
def get_players_near_ball (players : List PlayerPos) (ball_x ball_y : ℚ) : List PlayerPos :=
  players.filter (fun p => within_radius p.x p.y ball_x ball_y NEAR_BALL_RADIUS)

/-- `get_player_zones` of `TF_IDF.py`: the distinct zones of the players,
sorted (Python: `' '.join(sorted(set))`, re-split by the caller; zone names
contain no spaces, so the embedding keeps the sorted distinct list). -/
def get_player_zones (players : List PlayerPos) : List String :=
  ((players.map (fun p => get_pitch_zone_detailed p.x p.y)).dedup).insertionSort
    (fun a b => a ≤ b)

/-- `get_length_category` of `TF_IDF.py`. -/
def get_length_category (length : ℕ) : String :=
  if length ≤ 3 then "short" else if length ≤ 8 then "medium" else "long"

/-- `s.replace(' ', '_')` for the single-character pattern used here. -/
def replace_space (s : String) : String :=
  String.mk (s.data.map (fun c => if c = ' ' then '_' else c))

/-- `_get_ball_position` of `TF_IDF.py`: only the processed `ballPosition`
dict, `None` otherwise (never the raw `ball` list). -/
def tfidf_get_ball_position (e : Event) : Option (ℚ × ℚ) :=
  e.ballPosition

/-- `event_to_text` of `TF_IDF.py`, as its `parts` list (the returned string
is `' '.join(parts)`). -/
def event_to_text_parts (event : Event) : List String :=
  let event_type := event.eventLabel.getD (event.eventType.getD "")
  let p1 := if event_type ≠ "" then ["type_" ++ event_type, "type_" ++ event_type] else []
  let setpiece := event.setpieceLabel.getD (event.setpieceType.getD "")
  let p2 := if setpiece ≠ "" then ["setpiece_" ++ replace_space setpiece] else []
  let outcome := event.outcome.getD ""
  let p3 := if outcome ≠ "" then ["outcome_" ++ outcome] else []
  let bp := tfidf_get_ball_position event
  let p4 :=
    match bp with
    | some b =>
      let z := get_pitch_zone_detailed b.1 b.2
      ["ballzone_" ++ z, "ballzone_" ++ z]
    | none => []
  let p5 :=
    if event_type = "Shot" ∨ event_type = "SH" then
      (if outcome ≠ "" then
        ["shot_outcome_" ++ outcome, "shot_outcome_" ++ outcome, "shot_outcome_" ++ outcome]
       else [])
      ++ (if event.isGoal then ["is_goal", "is_goal", "is_goal"] else [])
    else []
  let p6 :=
    if event_type = "Pass" ∨ event_type = "PA" then
      (let pass_type := event.passType.getD ""
       if pass_type ≠ "" then ["passtype_" ++ pass_type] else [])
      ++ (match event.secondaryPlayer, bp with
          | some sp, some b =>
            if sp ≠ "" then
              match (event.homePlayers ++ event.awayPlayers).find?
                  (fun p => decide (p.playerId = event.secondaryPlayerId)) with
              | some p =>
                ("pass_to_" ++ get_pitch_zone_detailed p.x p.y) ::
                  (if p.x > b.1 + 10 then ["pass_forward"]
                   else if p.x < b.1 - 10 then ["pass_backward"]
                   else [])
              | none => []
            else []
          | _, _ => [])
    else []
  let p7 :=
    match bp with
    | some b =>
      let near_home := get_players_near_ball event.homePlayers b.1 b.2
      let near_away := get_players_near_ball event.awayPlayers b.1 b.2
      (if near_home ≠ [] then (get_player_zones near_home).map (fun z => "near_home_" ++ z)
       else [])
      ++ (if near_away ≠ [] then (get_player_zones near_away).map (fun z => "near_away_" ++ z)
          else [])
      ++ (let total_near := near_home.length + near_away.length
          if total_near ≤ 2 then ["pressure_low"]
          else if total_near ≤ 4 then ["pressure_medium"]
          else ["pressure_high"])
    | none => []
  p1 ++ p2 ++ p3 ++ p4 ++ p5 ++ p6 ++ p7

/-- `sequence_to_text` of `TF_IDF.py`, as its `parts` list. -/
def sequence_to_text_parts (events : List Event) : List String :=
  match events with
  | [] => []
  | e0 :: _ =>
    let p1 := events.flatMap (fun e =>
      let t := e.eventLabel.getD (e.eventType.getD "")
      if t ≠ "" then ["type_" ++ t] else [])
    let setpiece := e0.setpieceLabel.getD (e0.setpieceType.getD "")
    let p2 := if setpiece ≠ "" then
        ["setpiece_" ++ replace_space setpiece, "setpiece_" ++ replace_space setpiece]
      else []
    let p3 := ["length_" ++ get_length_category events.length]
    let first_ball := tfidf_get_ball_position e0
    let last_ball := tfidf_get_ball_position (events.getLastD e0)
    let p4 :=
      match first_ball with
      | some b => ["start_" ++ get_pitch_zone_detailed b.1 b.2]
      | none => []
    let p5 :=
      match last_ball with
      | some b => ["end_" ++ get_pitch_zone_detailed b.1 b.2]
      | none => []
    let p6 :=
      match first_ball, last_ball with
      | some fb, some lb =>
        let x_diff := lb.1 - fb.1
        if x_diff > 20 then ["progression_forward_strong"]
        else if x_diff > 5 then ["progression_forward"]
        else if x_diff < -20 then ["progression_backward_strong"]
        else if x_diff < -5 then ["progression_backward"]
        else ["progression_lateral"]
      | _, _ => []
    let pass_count := (events.filter (fun e =>
      decide (e.eventType = some "PA") || decide (e.eventLabel = some "Pass"))).length
    let p7 := if 0 < pass_count then ["passes_" ++ toString (min pass_count 10)] else []
    let has_shot := events.any (fun e =>
      decide (e.eventType = some "SH") || decide (e.eventLabel = some "Shot"))
    let p8 := if has_shot then ["has_shot", "has_shot"] else []
    let has_goal := events.any (fun e => e.isGoal)
    let p9 := if has_goal then ["has_goal", "has_goal", "has_goal"] else []
    p1 ++ p2 ++ p3 ++ p4 ++ p5 ++ p6 ++ p7 ++ p8 ++ p9

/-! ### TF_IDF.py: vectorizer, cosine scoring and the lexical searches

The `TfidfVectorizer(token_pattern=r'\S+', lowercase=False)` of scikit-learn
is embedded by its fitted state: the vocabulary together with its idf
weights.  `transform` counts the query's tokens over the fitted vocabulary
(tokens outside it are ignored), multiplies by idf and L2-normalizes - the
vocabulary itself is read-only.  The corpus matrix rows (`fit_transform`)
are the transforms of the corpus texts under the fitted state. -/

/-- The `\S+` tokenizer, restricted to the space-separated strings this code
produces (an accumulator-based split into maximal nonempty runs). -/
def wordsAux : List Char → List Char → List String
  | [], acc => if acc = [] then [] else [String.mk acc.reverse]
  | c :: cs, acc =>
    if c = ' ' then
      (if acc = [] then wordsAux cs [] else String.mk acc.reverse :: wordsAux cs [])
    else wordsAux cs (c :: acc)

/-- Tokenize one string. -/
def splitTokens (s : String) : List String := wordsAux s.data []

/-- The token stream of `' '.join(parts)` under `\S+` (parts containing a
space split into several tokens, exactly as in the joined string). -/
def text_tokens (parts : List String) : List String := (parts.map splitTokens).flatten

/-- The fitted state of one `TfidfVectorizer`. -/
structure Vectorizer where
  vocabulary : List String
  idf : String → ℝ

/-- The un-normalized transform row: per vocabulary term,
`count * idf(term)`. -/
noncomputable def raw_vector (v : Vectorizer) (tokens : List String) : List ℝ :=
  v.vocabulary.map (fun term => (tokens.count term : ℝ) * v.idf term)

/-- L2 normalization (scikit-learn leaves an all-zero row unchanged). -/
noncomputable def l2_normalize (u : List ℝ) : List ℝ :=
  let n := Real.sqrt ((u.map (fun a => a ^ 2)).sum)
  if n = 0 then u else u.map (fun a => a / n)

/-- `vectorizer.transform([text])` for a tokenized text. -/
noncomputable def transform (v : Vectorizer) (tokens : List String) : List ℝ :=
  l2_normalize (raw_vector v tokens)

/-- `sklearn.metrics.pairwise.cosine_similarity` of two rows (with the
all-zero-vector convention `0`, via `ℝ`'s division by zero). -/
noncomputable def cosine_similarity (u w : List ℝ) : ℝ :=
  (List.zipWith (fun a b => a * b) u w).sum /
    (Real.sqrt ((u.map (fun a => a ^ 2)).sum) * Real.sqrt ((w.map (fun a => a ^ 2)).sum))

/-- `round(x, 3)` (Python's float rounding; embedded as exact half-up
rounding at the third decimal). -/
noncomputable def round3 (x : ℝ) : ℝ := (round (x * 1000) : ℤ) / 1000

/-- One `_event_index` entry of `TF_IDF.py`. -/
structure LexEventEntry where
  matchId : String := ""
  sequenceId : ℤ := 0
  eventIndex : ℤ := 0
  event : Event := {}
  homeTeam : Option TeamD := none
  awayTeam : Option TeamD := none
deriving DecidableEq

/-- One `_sequence_index` entry of `TF_IDF.py`. -/
structure LexSeqEntry where
  matchId : String := ""
  sequenceId : ℤ := 0
  events : List Event := []
  setpieceType : String := ""
  teamId : String := ""
  time : String := ""
  homeTeam : Option TeamD := none
  awayTeam : Option TeamD := none
deriving DecidableEq

/-- The whole initialized TF-IDF module cache. -/
structure LexCache where
  event_vectorizer : Vectorizer
  sequence_vectorizer : Vectorizer
  event_entries : List LexEventEntry
  seq_entries : List LexSeqEntry

/-- One result dict of `search_similar_events`. -/
structure LexEventResult where
  matchId : String
  sequenceId : ℤ
  eventIndex : ℤ
  event : LwEvent
  homeTeam : Option TeamD
  awayTeam : Option TeamD
  similarity : ℝ

/-- One result dict of `search_similar_sequences`. -/
structure LexSeqResult where
  matchId : String
  sequenceId : ℤ
  setpieceType : String
  teamId : String
  time : String
  events : List LwEvent
  homeTeam : Option TeamD
  awayTeam : Option TeamD
  eventCount : ℕ
  similarity : ℝ

/-- The ranked-candidate scan shared by both lexical searches: walk the
scored entries in descending-similarity order, stop once `top_n` results are
collected (`break`), skip excluded entries and entries scoring below `0.01`
(`continue`). -/
noncomputable def select_results {α β : Type} (excl : α → Bool) (mk : α → ℝ → β) :
    List (α × ℝ) → ℕ → List β
  | [], _ => []
  | (e, s) :: rest, k =>
    if k = 0 then []
    else if excl e then select_results excl mk rest k
    else if s < 0.01 then select_results excl mk rest k
    else mk e s :: select_results excl mk rest (k - 1)

/-- `np.argsort(similarities)[::-1]`: the scored entries in descending score
order (a permutation of the input; numpy's tie order is unspecified). -/
noncomputable def sort_by_score_desc {α : Type} (l : List (α × ℝ)) : List (α × ℝ) :=
  l.insertionSort (fun a b => b.2 ≤ a.2)

/-- The cosine scores of `search_similar_events` against the cached event
vectors. -/
noncomputable def score_event_entries (cache : LexCache) (query_tokens : List String) :
    List (LexEventEntry × ℝ) :=
  let qv := transform cache.event_vectorizer query_tokens
  cache.event_entries.map (fun e =>
    (e, cosine_similarity qv
      (transform cache.event_vectorizer (text_tokens (event_to_text_parts e.event)))))

/-- The cosine scores of `search_similar_sequences` against the cached
sequence vectors. -/
noncomputable def score_seq_entries (cache : LexCache) (query_tokens : List String) :
    List (LexSeqEntry × ℝ) :=
  let qv := transform cache.sequence_vectorizer query_tokens
  cache.seq_entries.map (fun e =>
    (e, cosine_similarity qv
      (transform cache.sequence_vectorizer (text_tokens (sequence_to_text_parts e.events)))))

/-- `search_similar_events` of `TF_IDF.py`, as a pure function of the
initialized cache (its `initialize_cache()` call is modelled by
`search_events_stateful` below). -/
noncomputable def search_similar_events (cache : LexCache) (query_event : Event)
    (exclude_match_id : Option String) (exclude_seq_id : Option ℤ)
    (exclude_event_idx : Option ℤ) (top_n : ℕ) : List LexEventResult :=
  let scored := score_event_entries cache (text_tokens (event_to_text_parts query_event))
  select_results
    (fun e => decide (some e.matchId = exclude_match_id
      ∧ some e.sequenceId = exclude_seq_id ∧ some e.eventIndex = exclude_event_idx))
    (fun e s =>
      { matchId := e.matchId, sequenceId := e.sequenceId, eventIndex := e.eventIndex,
        event := lightweight_event e.event, homeTeam := e.homeTeam, awayTeam := e.awayTeam,
        similarity := round3 s })
    (sort_by_score_desc scored) top_n

/-- `search_similar_sequences` of `TF_IDF.py`, as a pure function of the
initialized cache. -/
noncomputable def search_similar_sequences (cache : LexCache) (query_events : List Event)
    (exclude_match_id : Option String) (exclude_seq_id : Option ℤ) (top_n : ℕ) :
    List LexSeqResult :=
  let scored := score_seq_entries cache (text_tokens (sequence_to_text_parts query_events))
  select_results
    (fun e => decide (some e.matchId = exclude_match_id ∧ some e.sequenceId = exclude_seq_id))
    (fun e s =>
      { matchId := e.matchId, sequenceId := e.sequenceId, setpieceType := e.setpieceType,
        teamId := e.teamId, time := e.time, events := e.events.map lightweight_event,
        homeTeam := e.homeTeam, awayTeam := e.awayTeam, eventCount := e.events.length,
        similarity := round3 s })
    (sort_by_score_desc scored) top_n

/-! ### TF_IDF.py: hybrid search -/

/-- `HYBRID_WEIGHT_DTW` of `TF_IDF.py`. -/
noncomputable def HYBRID_WEIGHT_DTW : ℝ := 0.6

/-- `HYBRID_WEIGHT_TFIDF` of `TF_IDF.py`. -/
noncomputable def HYBRID_WEIGHT_TFIDF : ℝ := 0.4

/-- `HYBRID_INTERNAL_TOP_N` of `TF_IDF.py`. -/
def HYBRID_INTERNAL_TOP_N : ℕ := 50

/-- One result dict of `search_similar_sequences_hybrid`. -/
structure HybridResult where
  matchId : String
  sequenceId : ℤ
  setpieceType : String
  teamId : String
  time : String
  events : List LwEvent
  homeTeam : Option TeamD
  awayTeam : Option TeamD
  eventCount : ℕ
  similarity : ℝ
  dtwSimilarity : ℝ
  tfidfSimilarity : ℝ
  alignmentPath : Option (List (ℕ × ℕ))

/-- The `(str(matchId), sequenceId)` key of a DTW result (its `matchId` is
already a string). -/
def dtw_key (r : DtwResult) : String × ℤ := (r.matchId, r.sequenceId)

/-- The `(str(matchId), sequenceId)` key of a lexical result. -/
def lex_key (r : LexSeqResult) : String × ℤ := (r.matchId, r.sequenceId)

/-- A dict built by `for r in results: map[key(r)] = r` (a later duplicate
key overwrites an earlier one). -/
def key_map {α : Type} (keyOf : α → String × ℤ) (l : List α) : String × ℤ → Option α :=
  l.foldl (fun m r => fun k => if k = keyOf r then some r else m k) (fun _ => none)

/-- `all_keys = set(dtw_map) | set(tfidf_map)`, enumerated in first-appearance
order (Python's set iteration order is unspecified; only membership matters
downstream, the final ranking re-sorts). -/
def hybrid_all_keys (dtw_results : List DtwResult) (tfidf_results : List LexSeqResult) :
    List (String × ℤ) :=
  (dtw_results.map dtw_key ++ tfidf_results.map lex_key).dedup

/-- The merged-candidate construction of `search_similar_sequences_hybrid`
for one key: similarity contributions default to `0.0` for a missing entry;
metadata comes from the DTW entry when present, else the lexical one (both
absent cannot happen for a key of the union and would raise in Python). -/
noncomputable def hybrid_merge_one (od : Option DtwResult) (ol : Option LexSeqResult) :
    HybridResult :=
  let dtw_sim := (od.map (fun r => r.similarity)).getD 0
  let tfidf_sim := (ol.map (fun r => r.similarity)).getD 0
  let combined := HYBRID_WEIGHT_DTW * dtw_sim + HYBRID_WEIGHT_TFIDF * tfidf_sim
  match od, ol with
  | some d, _ =>
    { matchId := d.matchId, sequenceId := d.sequenceId, setpieceType := d.setpieceType,
      teamId := "", time := d.time, events := d.events, homeTeam := d.homeTeam,
      awayTeam := d.awayTeam, eventCount := d.eventCount,
      similarity := round3 combined, dtwSimilarity := round3 dtw_sim,
      tfidfSimilarity := round3 tfidf_sim, alignmentPath := some d.alignmentPath }
  | none, some l =>
    { matchId := l.matchId, sequenceId := l.sequenceId, setpieceType := l.setpieceType,
      teamId := l.teamId, time := l.time, events := l.events, homeTeam := l.homeTeam,
      awayTeam := l.awayTeam, eventCount := l.eventCount,
      similarity := round3 combined, dtwSimilarity := round3 dtw_sim,
      tfidfSimilarity := round3 tfidf_sim, alignmentPath := none }
  | none, none =>
    { matchId := "", sequenceId := 0, setpieceType := "", teamId := "", time := "",
      events := [], homeTeam := none, awayTeam := none, eventCount := 0,
      similarity := round3 combined, dtwSimilarity := round3 dtw_sim,
      tfidfSimilarity := round3 tfidf_sim, alignmentPath := none }

/-- Steps 3-6 of `search_similar_sequences_hybrid`: build the two key maps,
merge over the key union, sort by combined score descending, truncate. -/
noncomputable def hybrid_merge (dtw_results : List DtwResult)
    (tfidf_results : List LexSeqResult) (top_n : ℕ) : List HybridResult :=
  let dtw_map := key_map dtw_key dtw_results
  let tfidf_map := key_map lex_key tfidf_results
  let merged := (hybrid_all_keys dtw_results tfidf_results).map
    (fun k => hybrid_merge_one (dtw_map k) (tfidf_map k))
  (merged.insertionSort (fun a b => b.similarity ≤ a.similarity)).take top_n

/-- The argument adaptation of the internal DTW call:
`str(exclude_match_id) if exclude_match_id else None` (empty string falsy). -/
def hybrid_dtw_exclude (exclude_match_id : Option String) : Option String :=
  match exclude_match_id with
  | some s => if s = "" then none else some s
  | none => none

/-- The internal DTW ranking of `search_similar_sequences_hybrid` (step 1:
`top_n = HYBRID_INTERNAL_TOP_N`, default feature config). -/
noncomputable def hybrid_dtw_results (dtw_index : List DtwIndexEntry)
    (query_events : List Event) (exclude_match_id : Option String)
    (exclude_seq_id : Option ℤ) : List DtwResult :=
  search_similar_sequences_dtw dtw_index query_events HYBRID_INTERNAL_TOP_N
    OPTIONAL_FEATURES (hybrid_dtw_exclude exclude_match_id) exclude_seq_id

/-- The internal lexical ranking of `search_similar_sequences_hybrid`
(step 2). -/
noncomputable def hybrid_tfidf_results (cache : LexCache) (query_events : List Event)
    (exclude_match_id : Option String) (exclude_seq_id : Option ℤ) : List LexSeqResult :=
  search_similar_sequences cache query_events exclude_match_id exclude_seq_id
    HYBRID_INTERNAL_TOP_N

/-- `search_similar_sequences_hybrid` of `TF_IDF.py`. -/
noncomputable def search_similar_sequences_hybrid (dtw_index : List DtwIndexEntry)
    (cache : LexCache) (query_events : List Event) (exclude_match_id : Option String)
    (exclude_seq_id : Option ℤ) (top_n : ℕ) : List HybridResult :=
  hybrid_merge
    (hybrid_dtw_results dtw_index query_events exclude_match_id exclude_seq_id)
    (hybrid_tfidf_results cache query_events exclude_match_id exclude_seq_id)
    top_n

/-! ### Cache lifecycle and error handling

The module-level caches are modelled as explicit states; the repository
access that the builds perform (`_build_matches_data_from_repository` and the
index construction in `DTW.py`; `_load_all_plays` plus the two
`fit_transform` calls in `TF_IDF.py`) is parameterized as an `Except` value:
`.error` models the build raising an exception. -/

/-- The `DTW.py` module state: `_sequence_index` and `_cache_initialized`. -/
structure DtwState where
  index : List DtwIndexEntry
  flag : Bool

/-- `ensure_index_initialized` of `DTW.py`: the whole `try` block (repository
load plus `build_sequence_index`) is the `build` parameter; on exception the
handler empties the index and sets the flag. -/
def ensure_index_init (build : Except Unit (List DtwIndexEntry)) (st : DtwState) : DtwState :=
  if st.flag ∧ 0 < st.index.length then st
  else if 0 < st.index.length then { st with flag := true }
  else
    match build with
    | .ok idx => { index := idx, flag := true }
    | .error _ => { index := [], flag := true }

/-- `search_similar_sequences_dtw` including its initial
`ensure_index_initialized()` call: returns the new module state and the
results. -/
noncomputable def search_dtw_stateful (build : Except Unit (List DtwIndexEntry))
    (st : DtwState) (query_events : List Event) (top_n : ℕ) (config : Config)
    (exclude_match_id : Option String) (exclude_seq_id : Option ℤ) :
    DtwState × List DtwResult :=
  let st' := ensure_index_init build st
  (st', search_similar_sequences_dtw st'.index query_events top_n config
    exclude_match_id exclude_seq_id)

/-- The `TF_IDF.py` module state: `none` while `_cache_initialized` is
`False`. -/
structure TfState where
  cache : Option LexCache

/-- `initialize_cache` of `TF_IDF.py`: a no-op when already initialized;
otherwise the load-and-fit (the `load` parameter) runs WITHOUT any exception
handler, so a failure propagates to the caller and the flag stays unset. -/
def init_cache (load : Except Unit LexCache) (st : TfState) : Except Unit TfState :=
  match st.cache with
  | some _ => .ok st
  | none =>
    match load with
    | .ok c => .ok { cache := some c }
    | .error e => .error e

/-- `search_similar_events` including its initial `initialize_cache()` call:
an exception escaping `initialize_cache` escapes the search as well. -/
noncomputable def search_events_stateful (load : Except Unit LexCache) (st : TfState)
    (query_event : Event) (exclude_match_id : Option String) (exclude_seq_id : Option ℤ)
    (exclude_event_idx : Option ℤ) (top_n : ℕ) :
    Except Unit (TfState × List LexEventResult) :=
  match init_cache load st with
  | .error e => .error e
  | .ok st' =>
    .ok (st', match st'.cache with
      | some c => search_similar_events c query_event exclude_match_id exclude_seq_id
          exclude_event_idx top_n
      | none => [])

/-- `search_similar_sequences` including its initial `initialize_cache()`
call. -/
noncomputable def search_seq_stateful (load : Except Unit LexCache) (st : TfState)
    (query_events : List Event) (exclude_match_id : Option String)
    (exclude_seq_id : Option ℤ) (top_n : ℕ) :
    Except Unit (TfState × List LexSeqResult) :=
  match init_cache load st with
  | .error e => .error e
  | .ok st' =>
    .ok (st', match st'.cache with
      | some c => search_similar_sequences c query_events exclude_match_id exclude_seq_id top_n
      | none => [])

/-! ### Proof infrastructure for the alignment algorithm

Auxiliary notions used to state and prove the path properties of the
embedded fastdtw: the strict row-major order of window lists, the
single-step relation of alignment paths, and explicit connecting chains
through the windows fastdtw builds. -/

/-- Strict row-major order on cells (the order in which `__dtw` windows are
enumerated). -/
def rowLt (a b : ℕ × ℕ) : Prop := a.1 < b.1 ∨ (a.1 = b.1 ∧ a.2 < b.2)

/-- One step of an alignment path: advance `i`, `j`, or both by exactly 1
(the predecessor structure of the `__dtw` cost dict). -/
def StairStep (a b : ℕ × ℕ) : Prop :=
  (b.1 = a.1 + 1 ∧ b.2 = a.2) ∨ (b.1 = a.1 ∧ b.2 = a.2 + 1)
  ∨ (b.1 = a.1 + 1 ∧ b.2 = a.2 + 1)

/-- Shift a window cell into the `D` dict's coordinates. -/
def shiftCell (c : ℕ × ℕ) : ℕ × ℕ := (c.1 + 1, c.2 + 1)

/-- An explicit staircase through the full window: along row 0, then down
the last column. -/
def lChain (n m : ℕ) : List (ℕ × ℕ) :=
  (List.range m).map (fun j => (0, j)) ++ (List.range (n - 1)).map (fun i => (i + 1, m - 1))

/-- The two fine cells connecting consecutive coarse-path blocks (the 2×2
blocks of `__expand_window` overlap along every coarse step). -/
def stepCells (c c' : ℕ × ℕ) : List (ℕ × ℕ) :=
  if c'.1 = c.1 then [(2 * c.1 + 1, 2 * c.2 + 2), (2 * c.1 + 1, 2 * c.2 + 3)]
  else if c'.2 = c.2 then [(2 * c.1 + 2, 2 * c.2 + 1), (2 * c.1 + 3, 2 * c.2 + 1)]
  else [(2 * c.1 + 2, 2 * c.2 + 2), (2 * c.1 + 3, 2 * c.2 + 3)]

/-- The fine staircase following a coarse path block by block. -/
def fineChain : ℕ × ℕ → List (ℕ × ℕ) → List (ℕ × ℕ)
  | _, [] => []
  | c, c' :: rest => stepCells c c' ++ fineChain c' rest

/-- The full fine staircase from `(0,0)` to `(n-1, m-1)` induced by a coarse
path (with a parity extension step when `n` or `m` is odd). -/
def fineOf (pth : List (ℕ × ℕ)) (n m : ℕ) : List (ℕ × ℕ) :=
  match pth with
  | [] => []
  | c0 :: rest =>
    (0, 0) :: (1, 1) :: (fineChain c0 rest ++
      (if n % 2 = 1 ∨ m % 2 = 1 then [(n - 1, m - 1)] else []))

/-- The loop body of `runDtw`, named for the proofs. -/
noncomputable def dtwStep (cost : ℕ → ℕ → WithTop ℝ) (D : ℕ × ℕ → DtwCell)
    (ij : ℕ × ℕ) : ℕ × ℕ → DtwCell :=
  fun p => if p = (ij.1 + 1, ij.2 + 1) then dtwCell D (cost ij.1 ij.2) ij.1 ij.2 else D p

/-! ## Lemmas -/

/-! ### Basic facts about the distance functions -/

theorem euclidean_distance_nonneg (x1 y1 x2 y2 : ℚ) : 0 ≤ euclidean_distance x1 y1 x2 y2 :=
  Real.sqrt_nonneg _

theorem euclidean_distance_self (x y : ℚ) : euclidean_distance x y x y = 0 := by
  simp [euclidean_distance]

theorem foldl_min_le_acc (f : ℚ × ℚ → ℝ) (l : List (ℚ × ℚ)) (init : WithTop ℝ) :
    l.foldl (fun m t => min m ((f t : ℝ) : WithTop ℝ)) init ≤ init := by
  induction l generalizing init with
  | nil => simp
  | cons a t ih => exact le_trans (ih _) (min_le_left _ _)

theorem foldl_min_le_mem (f : ℚ × ℚ → ℝ) (l : List (ℚ × ℚ)) (x : ℚ × ℚ) (hx : x ∈ l)
    (init : WithTop ℝ) :
    l.foldl (fun m t => min m ((f t : ℝ) : WithTop ℝ)) init ≤ ((f x : ℝ) : WithTop ℝ) := by
  induction l generalizing init with
  | nil => simp at hx
  | cons a t ih =>
    rcases List.mem_cons.mp hx with h | h
    · subst h
      exact le_trans (foldl_min_le_acc f t _) (min_le_right _ _)
    · exact ih h _

theorem foldl_min_nonneg (f : ℚ × ℚ → ℝ) (l : List (ℚ × ℚ)) (hf : ∀ x ∈ l, 0 ≤ f x)
    (init : WithTop ℝ) (hi : 0 ≤ init) :
    0 ≤ l.foldl (fun m t => min m ((f t : ℝ) : WithTop ℝ)) init := by
  induction l generalizing init with
  | nil => simpa
  | cons a t ih =>
    refine ih (fun x hx => hf x (List.mem_cons_of_mem a hx)) _ (le_min hi ?_)
    exact_mod_cast hf a (List.mem_cons_self a t)

theorem nearest_distance_nonneg (src : ℚ × ℚ) (target : List (ℚ × ℚ)) :
    0 ≤ nearest_distance src target :=
  foldl_min_nonneg _ _ (fun _ _ => euclidean_distance_nonneg _ _ _ _) _ le_top

theorem nearest_distance_self_mem (src : ℚ × ℚ) (target : List (ℚ × ℚ)) (h : src ∈ target) :
    nearest_distance src target = 0 := by
  refine le_antisymm ?_ (nearest_distance_nonneg src target)
  have := foldl_min_le_mem (fun t => euclidean_distance src.1 src.2 t.1 t.2) target src h ⊤
  rw [euclidean_distance_self] at this
  exact_mod_cast this

theorem foldl_add_eq_of_zero (g : ℚ × ℚ → WithTop ℝ) (l : List (ℚ × ℚ))
    (hg : ∀ s ∈ l, g s = 0) (c : WithTop ℝ) :
    l.foldl (fun tot s => tot + g s) c = c := by
  induction l generalizing c with
  | nil => rfl
  | cons a t ih =>
    rw [List.foldl_cons, hg a (List.mem_cons_self a t), add_zero]
    exact ih (fun s hs => hg s (List.mem_cons_of_mem a hs)) c

theorem avg_nearest_distance_self (p : List (ℚ × ℚ)) : avg_nearest_distance p p = 0 := by
  unfold avg_nearest_distance
  rw [foldl_add_eq_of_zero _ _ (fun s hs => nearest_distance_self_mem s p hs) 0]
  show WithTop.map _ ((0 : ℝ) : WithTop ℝ) = 0
  rw [WithTop.map_coe]
  norm_num

theorem player_formation_distance_self (p : List (ℚ × ℚ)) :
    player_formation_distance p p = 0 := by
  unfold player_formation_distance
  by_cases hp : p = []
  · simp [hp]
  · rw [if_neg (by simp [hp]), avg_nearest_distance_self]
    show WithTop.map _ (((0 : ℝ) : WithTop ℝ) + ((0 : ℝ) : WithTop ℝ)) = 0
    rw [← WithTop.coe_add, WithTop.map_coe]
    norm_num

theorem event_type_penalty_self (t : String) : event_type_penalty t t = 0 := by
  simp [event_type_penalty]

theorem pass_type_penalty_self (t : String) : pass_type_penalty t t = 0 := by
  simp [pass_type_penalty]

theorem shot_type_penalty_self (t : String) : shot_type_penalty t t = 0 := by
  simp [shot_type_penalty]

theorem pressure_type_penalty_self (t : String) : pressure_type_penalty t t = 0 := by
  simp [pressure_type_penalty]

theorem event_distance_self (f : FeatureRec) (config : Config) :
    event_distance f f config = 0 := by
  unfold event_distance
  rw [euclidean_distance_self, event_type_penalty_self, player_formation_distance_self,
    pass_type_penalty_self, shot_type_penalty_self, pressure_type_penalty_self]
  simp

/-- Claim C7: the event cost of an event compared with itself is 0 for every
optional-feature configuration, and each sub-cost (ball distance, type
penalty, formation distance, every optional penalty) is itself 0 on
identical feature records. -/
theorem event_cost_reflexive (f : FeatureRec) (config : Config) :
    euclidean_distance f.ball_position.1 f.ball_position.2
        f.ball_position.1 f.ball_position.2 = 0
    ∧ event_type_penalty f.event_type f.event_type = 0
    ∧ player_formation_distance f.near_players f.near_players = 0
    ∧ pass_type_penalty f.pass_type f.pass_type = 0
    ∧ shot_type_penalty f.shot_type f.shot_type = 0
    ∧ pressure_type_penalty f.pressure_type f.pressure_type = 0
    ∧ event_distance f f config = 0 :=
  ⟨euclidean_distance_self _ _, event_type_penalty_self _,
    player_formation_distance_self _, pass_type_penalty_self _, shot_type_penalty_self _,
    pressure_type_penalty_self _, event_distance_self f config⟩

/-- Claim C6: `player_formation_distance` is symmetric, is 0 on two empty
sets, is the fixed penalty 10 when exactly one set is empty (a singleton on
the other side included), and is otherwise the mean of the two directional
average nearest-neighbor distances. -/
theorem player_formation_distance_spec (A B : List (ℚ × ℚ)) :
    player_formation_distance A B = player_formation_distance B A
    ∧ (A = [] → B = [] → player_formation_distance A B = 0)
    ∧ (A = [] → B ≠ [] → player_formation_distance A B = 10)
    ∧ (A ≠ [] → B = [] → player_formation_distance A B = 10)
    ∧ (A ≠ [] → B ≠ [] → player_formation_distance A B =
        (avg_nearest_distance A B + avg_nearest_distance B A).map (fun x => x / 2)) := by
  refine ⟨?_, ?_, ?_, ?_, ?_⟩
  · unfold player_formation_distance
    by_cases hA : A = [] <;> by_cases hB : B = [] <;>
      simp [hA, hB, add_comm]
  · intro hA hB
    simp [player_formation_distance, hA, hB]
  · intro hA hB
    simp [player_formation_distance, hA, hB]
  · intro hA hB
    simp [player_formation_distance, hA, hB]
  · intro hA hB
    simp [player_formation_distance, hA, hB]

/-- Witness for C6 at concrete inputs: the asymmetric-emptiness case with a
singleton on one side gives the fixed penalty 10, the doubly-empty case
gives 0, and symmetry holds at a concrete pair. -/
theorem player_formation_distance_spec_witness :
    player_formation_distance [] [((0 : ℚ), (0 : ℚ))] = 10
    ∧ player_formation_distance ([] : List (ℚ × ℚ)) [] = 0
    ∧ player_formation_distance [((1 : ℚ), (2 : ℚ))] [((3 : ℚ), (4 : ℚ))] =
        player_formation_distance [((3 : ℚ), (4 : ℚ))] [((1 : ℚ), (2 : ℚ))] :=
  ⟨(player_formation_distance_spec [] [((0 : ℚ), (0 : ℚ))]).2.2.1 rfl (by simp),
   (player_formation_distance_spec [] []).2.1 rfl rfl,
   (player_formation_distance_spec [((1 : ℚ), (2 : ℚ))] [((3 : ℚ), (4 : ℚ))]).1⟩

/-! ### The event-type penalty (C1) -/

theorem mem_named_groups (t g : String) :
    g ∈ (EVENT_GROUPS.filter (fun p => p.2.contains t)).map Prod.fst ↔
      ∃ p ∈ EVENT_GROUPS, p.1 = g ∧ t ∈ p.2 := by
  simp only [List.mem_map, List.mem_filter, List.elem_iff]
  constructor
  · rintro ⟨p, ⟨hp, ht⟩, rfl⟩
    exact ⟨p, hp, rfl, ht⟩
  · rintro ⟨p, hp, rfl, ht⟩
    exact ⟨p, ⟨hp, ht⟩, rfl⟩

theorem named_groups_eq_nil (t : String) :
    (EVENT_GROUPS.filter (fun p => p.2.contains t)).map Prod.fst = [] ↔
      ∀ p ∈ EVENT_GROUPS, t ∉ p.2 := by
  rw [List.map_eq_nil_iff, List.filter_eq_nil_iff]
  simp [List.elem_iff]

theorem get_event_group_of_grouped (t : String) (p : String × List String)
    (hp : p ∈ EVENT_GROUPS) (ht : t ∈ p.2) :
    get_event_group t = (EVENT_GROUPS.filter (fun q => q.2.contains t)).map Prod.fst := by
  unfold get_event_group
  rw [if_neg]
  simp only [List.isEmpty_iff]
  intro hnil
  exact (named_groups_eq_nil t).mp hnil p hp ht

theorem get_event_group_other (t : String) (h : ∀ p ∈ EVENT_GROUPS, t ∉ p.2) :
    get_event_group t = ["other"] := by
  unfold get_event_group
  rw [if_pos]
  rw [List.isEmpty_iff]
  exact (named_groups_eq_nil t).mpr h

theorem mem_get_event_group (t g : String) :
    g ∈ get_event_group t ↔
      ((∃ p ∈ EVENT_GROUPS, p.1 = g ∧ t ∈ p.2) ∨
        (g = "other" ∧ ∀ p ∈ EVENT_GROUPS, t ∉ p.2)) := by
  by_cases h : ∀ p ∈ EVENT_GROUPS, t ∉ p.2
  · rw [get_event_group_other t h]
    simp only [List.mem_singleton]
    constructor
    · rintro rfl
      exact Or.inr ⟨rfl, h⟩
    · rintro (⟨p, hp, rfl, ht⟩ | ⟨rfl, -⟩)
      · exact absurd ht (h p hp)
      · rfl
  · push_neg at h
    obtain ⟨p, hp, ht⟩ := h
    rw [get_event_group_of_grouped t p hp ht, mem_named_groups]
    constructor
    · exact Or.inl
    · rintro (hh | ⟨rfl, hall⟩)
      · exact hh
      · exact absurd ht (hall p hp)

theorem table_name_inj (p1 p2 : String × List String) (h1 : p1 ∈ EVENT_GROUPS)
    (h2 : p2 ∈ EVENT_GROUPS) (h : p1.1 = p2.1) : p1 = p2 := by
  fin_cases h1 <;> fin_cases h2 <;> simp_all

theorem shooting_mem_get_event_group (t : String) :
    "shooting" ∈ get_event_group t ↔ t ∈ ["SH", "PK"] := by
  rw [mem_get_event_group]
  constructor
  · rintro (⟨p, hp, hname, ht⟩ | ⟨habs, -⟩)
    · fin_cases hp <;> simp_all
    · exact absurd habs (by decide)
  · intro ht
    exact Or.inl ⟨("shooting", ["SH", "PK"]), by simp [EVENT_GROUPS], rfl, ht⟩

theorem defensive_mem_get_event_group (t : String) :
    "defensive" ∈ get_event_group t ↔ t ∈ ["CL", "RE"] := by
  rw [mem_get_event_group]
  constructor
  · rintro (⟨p, hp, hname, ht⟩ | ⟨habs, -⟩)
    · fin_cases hp <;> simp_all
    · exact absurd habs (by decide)
  · intro ht
    exact Or.inl ⟨("defensive", ["CL", "RE"]), by simp [EVENT_GROUPS], rfl, ht⟩

theorem inter_ne_nil_iff (l1 l2 : List String) :
    l1.inter l2 ≠ [] ↔ ∃ g, g ∈ l1 ∧ g ∈ l2 := by
  rw [Ne, List.eq_nil_iff_forall_not_mem]
  push_neg
  exact exists_congr (fun g => List.mem_inter_iff)

theorem get_event_group_inter_nil (t1 t2 : String)
    (hshare : ¬ ∃ p ∈ EVENT_GROUPS, t1 ∈ p.2 ∧ t2 ∈ p.2)
    (hboth : ¬ ((∀ p ∈ EVENT_GROUPS, t1 ∉ p.2) ∧ (∀ p ∈ EVENT_GROUPS, t2 ∉ p.2))) :
    (get_event_group t1).inter (get_event_group t2) = [] := by
  by_contra hne
  obtain ⟨g, hg1, hg2⟩ := (inter_ne_nil_iff _ _).mp hne
  rw [mem_get_event_group] at hg1 hg2
  rcases hg1 with ⟨p1, hp1, hn1, ht1⟩ | ⟨rfl, hall1⟩
  · rcases hg2 with ⟨p2, hp2, hn2, ht2⟩ | ⟨hother, hall2⟩
    · have hpp : p1 = p2 := table_name_inj p1 p2 hp1 hp2 (hn1.trans hn2.symm)
      exact hshare ⟨p1, hp1, ht1, hpp ▸ ht2⟩
    · subst hother
      fin_cases hp1 <;> simp_all
  · rcases hg2 with ⟨p2, hp2, hn2, ht2⟩ | ⟨-, hall2⟩
    · fin_cases hp2 <;> simp_all
    · exact hboth ⟨hall1, hall2⟩

/-- Claim C1 (amended): the event-type penalty is 0 on identical types; 5
when the types differ and either is empty; 2 when two distinct nonempty
types share a named semantic group, AND ALSO 2 when two distinct nonempty
types belong to no named group at all (they then share the sentinel group
`other`); 10 when the (sentinel-extended) groups are disjoint and one type
is a shooting type while the other is a defensive type; and 5 otherwise. -/
theorem event_type_penalty_spec (t1 t2 : String) :
    (t1 = t2 → event_type_penalty t1 t2 = 0)
    ∧ (t1 ≠ t2 → (t1 = "" ∨ t2 = "") → event_type_penalty t1 t2 = 5)
    ∧ (t1 ≠ t2 → t1 ≠ "" → t2 ≠ "" → (∃ p ∈ EVENT_GROUPS, t1 ∈ p.2 ∧ t2 ∈ p.2) →
        event_type_penalty t1 t2 = 2)
    ∧ (t1 ≠ t2 → t1 ≠ "" → t2 ≠ "" → (∀ p ∈ EVENT_GROUPS, t1 ∉ p.2) →
        (∀ p ∈ EVENT_GROUPS, t2 ∉ p.2) → event_type_penalty t1 t2 = 2)
    ∧ (t1 ≠ t2 →
        ((t1 ∈ ["SH", "PK"] ∧ t2 ∈ ["CL", "RE"]) ∨ (t1 ∈ ["CL", "RE"] ∧ t2 ∈ ["SH", "PK"])) →
        event_type_penalty t1 t2 = 10)
    ∧ (t1 ≠ t2 → t1 ≠ "" → t2 ≠ "" →
        ¬ (∃ p ∈ EVENT_GROUPS, t1 ∈ p.2 ∧ t2 ∈ p.2) →
        ¬ ((∀ p ∈ EVENT_GROUPS, t1 ∉ p.2) ∧ (∀ p ∈ EVENT_GROUPS, t2 ∉ p.2)) →
        ¬ ((t1 ∈ ["SH", "PK"] ∧ t2 ∈ ["CL", "RE"]) ∨ (t1 ∈ ["CL", "RE"] ∧ t2 ∈ ["SH", "PK"])) →
        event_type_penalty t1 t2 = 5) := by
  refine ⟨?_, ?_, ?_, ?_, ?_, ?_⟩
  · intro h
    rw [event_type_penalty, if_pos h]
  · intro hne hempty
    rw [event_type_penalty, if_neg hne, if_pos hempty]
  · intro hne h1 h2 ⟨p, hp, ht1, ht2⟩
    rw [event_type_penalty, if_neg hne, if_neg (by tauto), if_pos]
    rw [inter_ne_nil_iff]
    exact ⟨p.1, (mem_get_event_group t1 p.1).mpr (Or.inl ⟨p, hp, rfl, ht1⟩),
      (mem_get_event_group t2 p.1).mpr (Or.inl ⟨p, hp, rfl, ht2⟩)⟩
  · intro hne h1 h2 hall1 hall2
    rw [event_type_penalty, if_neg hne, if_neg (by tauto), if_pos]
    rw [get_event_group_other t1 hall1, get_event_group_other t2 hall2]
    decide
  · intro hne hcross
    have h1 : t1 ≠ "" := by
      rcases hcross with ⟨h, -⟩ | ⟨h, -⟩ <;>
        simp only [List.mem_cons, List.mem_singleton, List.not_mem_nil, or_false] at h <;>
        rcases h with rfl | rfl <;> decide
    have h2 : t2 ≠ "" := by
      rcases hcross with ⟨-, h⟩ | ⟨-, h⟩ <;>
        simp only [List.mem_cons, List.mem_singleton, List.not_mem_nil, or_false] at h <;>
        rcases h with rfl | rfl <;> decide
    have hdisj : (get_event_group t1).inter (get_event_group t2) = [] := by
      apply get_event_group_inter_nil
      · rintro ⟨p, hp, ht1, ht2⟩
        rcases hcross with ⟨hc1, hc2⟩ | ⟨hc1, hc2⟩ <;>
          simp only [List.mem_cons, List.mem_singleton, List.not_mem_nil, or_false]
            at hc1 hc2 <;>
          rcases hc1 with rfl | rfl <;> rcases hc2 with rfl | rfl <;>
          fin_cases hp <;> exact absurd (And.intro ht1 ht2) (by decide)
      · rintro ⟨hall1, hall2⟩
        rcases hcross with ⟨hc1, -⟩ | ⟨hc1, -⟩
        · exact hall1 ("shooting", ["SH", "PK"]) (by simp [EVENT_GROUPS]) (by simpa using hc1)
        · exact hall1 ("defensive", ["CL", "RE"]) (by simp [EVENT_GROUPS]) (by simpa using hc1)
    rw [event_type_penalty, if_neg hne, if_neg (by tauto), if_neg (by simp [hdisj]), if_pos]
    rcases hcross with ⟨hc1, hc2⟩ | ⟨hc1, hc2⟩
    · exact Or.inl ⟨(shooting_mem_get_event_group t1).mpr hc1,
        (defensive_mem_get_event_group t2).mpr hc2⟩
    · exact Or.inr ⟨(defensive_mem_get_event_group t1).mpr hc1,
        (shooting_mem_get_event_group t2).mpr hc2⟩
  · intro hne h1 h2 hshare hboth hcross
    have hdisj := get_event_group_inter_nil t1 t2 hshare hboth
    rw [event_type_penalty, if_neg hne, if_neg (by tauto), if_neg (by simp [hdisj]), if_neg]
    rintro (⟨hs1, hd2⟩ | ⟨hd1, hs2⟩)
    · exact hcross (Or.inl ⟨(shooting_mem_get_event_group t1).mp hs1,
        (defensive_mem_get_event_group t2).mp hd2⟩)
    · exact hcross (Or.inr ⟨(defensive_mem_get_event_group t1).mp hd1,
        (shooting_mem_get_event_group t2).mp hs2⟩)

/-- Witness for C1 (amended) at concrete type codes, one per clause. -/
theorem event_type_penalty_spec_witness :
    event_type_penalty "PA" "PA" = 0
    ∧ event_type_penalty "PA" "" = 5
    ∧ event_type_penalty "PA" "CR" = 2
    ∧ event_type_penalty "XX" "YY" = 2
    ∧ event_type_penalty "SH" "CL" = 10
    ∧ event_type_penalty "PA" "SH" = 5 :=
  ⟨(event_type_penalty_spec "PA" "PA").1 rfl,
   (event_type_penalty_spec "PA" "").2.1 (by decide) (Or.inr rfl),
   (event_type_penalty_spec "PA" "CR").2.2.1 (by decide) (by decide) (by decide) (by decide),
   (event_type_penalty_spec "XX" "YY").2.2.2.1 (by decide) (by decide) (by decide)
     (by decide) (by decide),
   (event_type_penalty_spec "SH" "CL").2.2.2.2.1 (by decide) (by decide),
   (event_type_penalty_spec "PA" "SH").2.2.2.2.2 (by decide) (by decide) (by decide)
     (by decide) (by decide) (by decide)⟩

/-- Counterexample for C1 as frozen: two distinct type codes that belong to
no named group do NOT both yield 5 - they fall into the sentinel group
`other` together and yield 2. -/
theorem event_type_penalty_unknown_counterexample :
    ("XX" : String) ≠ "YY"
    ∧ (∀ p ∈ EVENT_GROUPS, "XX" ∉ p.2)
    ∧ (∀ p ∈ EVENT_GROUPS, "YY" ∉ p.2)
    ∧ event_type_penalty "XX" "YY" ≠ 5
    ∧ event_type_penalty "XX" "YY" = 2 := by
  refine ⟨by decide, by decide, by decide, ?_, ?_⟩ <;> decide

/-! ### Token-shape facts (C10) -/

theorem app_ne_app (p q x y : String)
    (h1 : ∀ c : List Char, q.data ≠ p.data ++ c)
    (h2 : ∀ c : List Char, p.data ≠ q.data ++ c) :
    p ++ x ≠ q ++ y := by
  intro he
  rw [String.ext_iff, String.data_append, String.data_append,
    List.append_eq_append_iff] at he
  rcases he with ⟨c, hc, -⟩ | ⟨c, hc, -⟩
  · exact h1 c hc
  · exact h2 c hc

theorem lit_ne_app (s q z : String) (h : s.length < q.length) : s ≠ q ++ z := by
  intro he
  have hl := congrArg String.length he
  rw [String.length_append] at hl
  omega

theorem mem_ite_list {c : Prop} [Decidable c] (l : List String) (t : String)
    (ht : t ∈ if c then l else []) : t ∈ l := by
  by_cases hc : c
  · rwa [if_pos hc] at ht
  · rw [if_neg hc] at ht
    simp at ht

theorem event_to_text_parts_shape (e : Event) (h : e.ballPosition = none) :
    ∀ t ∈ event_to_text_parts e,
      (∃ s, t = "type_" ++ s) ∨ (∃ s, t = "setpiece_" ++ s) ∨ (∃ s, t = "outcome_" ++ s)
      ∨ (∃ s, t = "shot_outcome_" ++ s) ∨ t = "is_goal" ∨ (∃ s, t = "passtype_" ++ s) := by
  intro t ht
  simp only [event_to_text_parts, tfidf_get_ball_position, h] at ht
  rw [List.mem_append] at ht
  rcases ht with ht | ht
  rotate_left
  · -- p7 vanished: the near-ball section is guarded by the ball position
    simp at ht
  rw [List.mem_append] at ht
  rcases ht with ht | ht
  rotate_left
  · -- p6: pass features; the receiver branch is also ball-guarded
    have ht := mem_ite_list _ _ ht
    rw [List.mem_append] at ht
    rcases ht with ht | ht
    · have ht := mem_ite_list _ _ ht
      simp only [List.mem_singleton] at ht
      exact Or.inr (Or.inr (Or.inr (Or.inr (Or.inr ⟨_, ht⟩))))
    · cases hsp : e.secondaryPlayer with
      | none => rw [hsp] at ht; simp at ht
      | some sp => rw [hsp] at ht; simp at ht
  rw [List.mem_append] at ht
  rcases ht with ht | ht
  rotate_left
  · -- p5: shot features
    have ht := mem_ite_list _ _ ht
    rw [List.mem_append] at ht
    rcases ht with ht | ht
    · have ht := mem_ite_list _ _ ht
      simp only [List.mem_cons, List.mem_singleton, List.not_mem_nil, or_false, or_self] at ht
      exact Or.inr (Or.inr (Or.inr (Or.inl ⟨_, ht⟩)))
    · have ht := mem_ite_list _ _ ht
      simp only [List.mem_cons, List.mem_singleton, List.not_mem_nil, or_false, or_self] at ht
      exact Or.inr (Or.inr (Or.inr (Or.inr (Or.inl ht))))
  rw [List.mem_append] at ht
  rcases ht with ht | ht
  rotate_left
  · -- p4 vanished: the ballzone tokens are ball-guarded
    simp at ht
  rw [List.mem_append] at ht
  rcases ht with ht | ht
  rotate_left
  · -- p3: outcome
    have ht := mem_ite_list _ _ ht
    simp only [List.mem_singleton] at ht
    exact Or.inr (Or.inr (Or.inl ⟨_, ht⟩))
  rw [List.mem_append] at ht
  rcases ht with ht | ht
  · -- p1: type (doubled)
    have ht := mem_ite_list _ _ ht
    simp only [List.mem_cons, List.mem_singleton, List.not_mem_nil, or_false, or_self] at ht
    exact Or.inl ⟨_, ht⟩
  · -- p2: setpiece
    have ht := mem_ite_list _ _ ht
    simp only [List.mem_singleton] at ht
    exact Or.inr (Or.inl ⟨_, ht⟩)

/-- Claim C10: when the structured `ballPosition` is absent (or empty/None),
the per-event token list has no ball-zone token, no near-ball player-zone
token and no pressure token, even when the raw positional `ball` list is
present - while `get_ball_position` (the feature extractor) DOES fall back
to that raw list. -/
theorem event_text_no_ball_fallback (e : Event) (h : e.ballPosition = none) :
    (∀ t ∈ event_to_text_parts e,
        (∀ z : String, t ≠ "ballzone_" ++ z)
        ∧ (∀ z : String, t ≠ "near_home_" ++ z)
        ∧ (∀ z : String, t ≠ "near_away_" ++ z)
        ∧ (∀ z : String, t ≠ "pressure_" ++ z))
    ∧ (∀ b rest, e.ball = b :: rest → get_ball_position e = b) := by
  constructor
  · intro t ht
    rcases event_to_text_parts_shape e h t ht with
      ⟨s, rfl⟩ | ⟨s, rfl⟩ | ⟨s, rfl⟩ | ⟨s, rfl⟩ | rfl | ⟨s, rfl⟩
    · exact ⟨fun z => app_ne_app _ _ _ _ (by intro c hc; simp at hc) (by intro c hc; simp at hc),
        fun z => app_ne_app _ _ _ _ (by intro c hc; simp at hc) (by intro c hc; simp at hc),
        fun z => app_ne_app _ _ _ _ (by intro c hc; simp at hc) (by intro c hc; simp at hc),
        fun z => app_ne_app _ _ _ _ (by intro c hc; simp at hc) (by intro c hc; simp at hc)⟩
    · exact ⟨fun z => app_ne_app _ _ _ _ (by intro c hc; simp at hc) (by intro c hc; simp at hc),
        fun z => app_ne_app _ _ _ _ (by intro c hc; simp at hc) (by intro c hc; simp at hc),
        fun z => app_ne_app _ _ _ _ (by intro c hc; simp at hc) (by intro c hc; simp at hc),
        fun z => app_ne_app _ _ _ _ (by intro c hc; simp at hc) (by intro c hc; simp at hc)⟩
    · exact ⟨fun z => app_ne_app _ _ _ _ (by intro c hc; simp at hc) (by intro c hc; simp at hc),
        fun z => app_ne_app _ _ _ _ (by intro c hc; simp at hc) (by intro c hc; simp at hc),
        fun z => app_ne_app _ _ _ _ (by intro c hc; simp at hc) (by intro c hc; simp at hc),
        fun z => app_ne_app _ _ _ _ (by intro c hc; simp at hc) (by intro c hc; simp at hc)⟩
    · exact ⟨fun z => app_ne_app _ _ _ _ (by intro c hc; simp at hc) (by intro c hc; simp at hc),
        fun z => app_ne_app _ _ _ _ (by intro c hc; simp at hc) (by intro c hc; simp at hc),
        fun z => app_ne_app _ _ _ _ (by intro c hc; simp at hc) (by intro c hc; simp at hc),
        fun z => app_ne_app _ _ _ _ (by intro c hc; simp at hc) (by intro c hc; simp at hc)⟩
    · exact ⟨fun z => lit_ne_app _ _ _ (by decide), fun z => lit_ne_app _ _ _ (by decide),
        fun z => lit_ne_app _ _ _ (by decide), fun z => lit_ne_app _ _ _ (by decide)⟩
    · exact ⟨fun z => app_ne_app _ _ _ _ (by intro c hc; simp at hc) (by intro c hc; simp at hc),
        fun z => app_ne_app _ _ _ _ (by intro c hc; simp at hc) (by intro c hc; simp at hc),
        fun z => app_ne_app _ _ _ _ (by intro c hc; simp at hc) (by intro c hc; simp at hc),
        fun z => app_ne_app _ _ _ _ (by intro c hc; simp at hc) (by intro c hc; simp at hc)⟩
  · intro b rest hb
    rw [get_ball_position, h, hb]

/-- Witness for C10: a concrete shot event with no structured ball position
but a raw `ball` list; its token list avoids all ball-derived tokens while
the feature extractor falls back to the raw position `(3, 4)`. -/
theorem event_text_no_ball_fallback_witness :
    (({ eventType := some "SH", outcome := some "G", isGoal := true,
        ball := [((3 : ℚ), (4 : ℚ))] } : Event).ballPosition = none)
    ∧ (∀ t ∈ event_to_text_parts
        { eventType := some "SH", outcome := some "G", isGoal := true,
          ball := [((3 : ℚ), (4 : ℚ))] },
        (∀ z : String, t ≠ "ballzone_" ++ z)
        ∧ (∀ z : String, t ≠ "near_home_" ++ z)
        ∧ (∀ z : String, t ≠ "near_away_" ++ z)
        ∧ (∀ z : String, t ≠ "pressure_" ++ z))
    ∧ get_ball_position
        { eventType := some "SH", outcome := some "G", isGoal := true,
          ball := [((3 : ℚ), (4 : ℚ))] } = ((3 : ℚ), (4 : ℚ)) :=
  ⟨rfl,
   (event_text_no_ball_fallback _ rfl).1,
   (event_text_no_ball_fallback _ rfl).2 ((3 : ℚ), (4 : ℚ)) [] rfl⟩

/-! ### Index-build failure handling (C2) -/

theorem search_dtw_empty_index (q : List Event) (top_n : ℕ) (config : Config)
    (em : Option String) (es : Option ℤ) :
    search_similar_sequences_dtw [] q top_n config em es = [] := by
  by_cases hq : q = [] <;> simp [search_similar_sequences_dtw, hq]

/-- Claim C2 (amended): a build failure of the alignment index is caught -
the cache is marked initialized with an empty index and every later
alignment search returns an empty list; the lexical `initialize_cache`,
however, has no handler: the failure propagates out of every search that
triggers it, and the cache stays uninitialized. -/
theorem index_build_failure_spec (st : DtwState) (hst : st.index = [])
    (tf : TfState) (htf : tf.cache = none) (q : List Event) (qe : Event)
    (top_n : ℕ) (config : Config) (em : Option String) (es ei : Option ℤ) :
    ensure_index_init (Except.error ()) st = ⟨[], true⟩
    ∧ search_dtw_stateful (Except.error ()) st q top_n config em es = (⟨[], true⟩, [])
    ∧ init_cache (Except.error ()) tf = Except.error ()
    ∧ search_events_stateful (Except.error ()) tf qe em es ei top_n = Except.error ()
    ∧ search_seq_stateful (Except.error ()) tf q em es top_n = Except.error () := by
  have h1 : ensure_index_init (Except.error ()) st = ⟨[], true⟩ := by
    simp [ensure_index_init, hst]
  have h3 : init_cache (Except.error ()) tf = Except.error () := by
    rw [init_cache, htf]
  refine ⟨h1, ?_, h3, ?_, ?_⟩
  · rw [search_dtw_stateful, h1]
    rw [search_dtw_empty_index]
  · rw [search_events_stateful, h3]
  · rw [search_seq_stateful, h3]

/-- Witness for C2 (amended) at a concrete fresh state. -/
theorem index_build_failure_spec_witness :
    ensure_index_init (Except.error ()) ⟨[], false⟩ = ⟨[], true⟩
    ∧ search_dtw_stateful (Except.error ()) ⟨[], false⟩ [] 10 {} none none = (⟨[], true⟩, [])
    ∧ init_cache (Except.error ()) ⟨none⟩ = Except.error ()
    ∧ search_events_stateful (Except.error ()) ⟨none⟩ {} none none none 10 = Except.error ()
    ∧ search_seq_stateful (Except.error ()) ⟨none⟩ [] none none 10 = Except.error () :=
  index_build_failure_spec ⟨[], false⟩ rfl ⟨none⟩ rfl [] {} 10 {} none none none

/-- Counterexample for C2 as frozen: for the lexical (TF-IDF) index the
build exception is NOT caught - from an uninitialized state with a failing
build, `initialize_cache` itself and both lexical searches raise (return
`Except.error`) instead of marking the cache built and returning `[]`. -/
theorem tfidf_init_error_counterexample :
    init_cache (Except.error ()) ⟨none⟩ = Except.error ()
    ∧ search_events_stateful (Except.error ()) ⟨none⟩ {} none none none 10 = Except.error ()
    ∧ search_seq_stateful (Except.error ()) ⟨none⟩ [] none none 10 = Except.error () :=
  ⟨rfl, rfl, rfl⟩

/-! ### The lexical search loop (C8, C9) -/

theorem round3_mono {x y : ℝ} (h : x ≤ y) : round3 x ≤ round3 y := by
  unfold round3
  have hr : round (x * 1000) ≤ round (y * 1000) := by
    rw [round_eq, round_eq]
    exact Int.floor_mono (by linarith)
  have hc : ((round (x * 1000) : ℤ) : ℝ) ≤ ((round (y * 1000) : ℤ) : ℝ) := by exact_mod_cast hr
  linarith

theorem round3_ge_threshold {s : ℝ} (h : 0.01 ≤ s) : 0.01 ≤ round3 s := by
  unfold round3
  have h10 : (10 : ℤ) ≤ round (s * 1000) := by
    rw [round_eq, Int.le_floor]
    push_cast
    linarith
  have hc : (10 : ℝ) ≤ ((round (s * 1000) : ℤ) : ℝ) := by exact_mod_cast h10
  linarith

theorem select_results_length_le {α β : Type} (excl : α → Bool) (mk : α → ℝ → β) :
    ∀ (l : List (α × ℝ)) (k : ℕ), (select_results excl mk l k).length ≤ k := by
  intro l
  induction l with
  | nil => intro k; simp [select_results]
  | cons p rest ih =>
    intro k
    obtain ⟨e, s⟩ := p
    rw [select_results]
    by_cases hk : k = 0
    · simp [hk]
    rw [if_neg hk]
    by_cases hx : excl e
    · rw [if_pos hx]
      exact ih k
    rw [if_neg hx]
    by_cases hs : s < 0.01
    · rw [if_pos hs]
      exact ih k
    rw [if_neg hs]
    have := ih (k - 1)
    simp only [List.length_cons]
    omega

theorem select_results_length_le_filter {α β : Type} (excl : α → Bool) (mk : α → ℝ → β) :
    ∀ (l : List (α × ℝ)) (k : ℕ),
      (select_results excl mk l k).length ≤ (l.filter (fun p => !excl p.1)).length := by
  intro l
  induction l with
  | nil => intro k; simp [select_results]
  | cons p rest ih =>
    intro k
    obtain ⟨e, s⟩ := p
    rw [select_results]
    by_cases hk : k = 0
    · simp [hk]
    rw [if_neg hk]
    by_cases hx : excl e
    · rw [if_pos hx]
      calc (select_results excl mk rest k).length
          ≤ (rest.filter (fun p => !excl p.1)).length := ih k
        _ ≤ (((e, s) :: rest).filter (fun p => !excl p.1)).length := by
            rw [List.filter_cons]
            split <;> simp
    rw [if_neg hx]
    have hkeep : (((e, s) :: rest).filter (fun p => !excl p.1)).length
        = (rest.filter (fun p => !excl p.1)).length + 1 := by
      rw [List.filter_cons, if_pos (by simp [hx])]
      simp
    by_cases hs : s < 0.01
    · rw [if_pos hs]
      rw [hkeep]
      exact le_trans (ih k) (Nat.le_succ _)
    rw [if_neg hs]
    rw [hkeep]
    simpa using ih (k - 1)

theorem select_results_mem {α β : Type} (excl : α → Bool) (mk : α → ℝ → β) :
    ∀ (l : List (α × ℝ)) (k : ℕ) (y : β), y ∈ select_results excl mk l k →
      ∃ p ∈ l, y = mk p.1 p.2 ∧ excl p.1 = false ∧ ¬ p.2 < 0.01 := by
  intro l
  induction l with
  | nil => intro k y hy; simp [select_results] at hy
  | cons p rest ih =>
    intro k y hy
    obtain ⟨e, s⟩ := p
    rw [select_results] at hy
    by_cases hk : k = 0
    · simp [hk] at hy
    rw [if_neg hk] at hy
    by_cases hx : excl e
    · rw [if_pos hx] at hy
      obtain ⟨q, hq, hrest⟩ := ih k y hy
      exact ⟨q, List.mem_cons_of_mem _ hq, hrest⟩
    rw [if_neg hx] at hy
    by_cases hs : s < 0.01
    · rw [if_pos hs] at hy
      obtain ⟨q, hq, hrest⟩ := ih k y hy
      exact ⟨q, List.mem_cons_of_mem _ hq, hrest⟩
    rw [if_neg hs] at hy
    rcases List.mem_cons.mp hy with rfl | hy
    · exact ⟨(e, s), List.mem_cons_self _ _, rfl, by simpa using hx, hs⟩
    · obtain ⟨q, hq, hrest⟩ := ih (k - 1) y hy
      exact ⟨q, List.mem_cons_of_mem _ hq, hrest⟩

theorem select_results_forall {α β : Type} (excl : α → Bool) (mk : α → ℝ → β)
    (P : β → Prop) (hP : ∀ e s, ¬ s < 0.01 → P (mk e s)) (l : List (α × ℝ)) (k : ℕ) :
    (select_results excl mk l k).Forall P := by
  rw [List.forall_iff_forall_mem]
  intro y hy
  obtain ⟨p, -, rfl, -, hs⟩ := select_results_mem excl mk l k y hy
  exact hP p.1 p.2 hs

theorem select_results_sorted {α β : Type} (excl : α → Bool) (mk : α → ℝ → β)
    (π : β → ℝ) (hmk : ∀ e s, π (mk e s) = round3 s) :
    ∀ (l : List (α × ℝ)) (k : ℕ), List.Sorted (fun a b : α × ℝ => b.2 ≤ a.2) l →
      List.Sorted (fun x y : β => π y ≤ π x) (select_results excl mk l k) := by
  intro l
  induction l with
  | nil => intro k hl; simp [select_results]
  | cons p rest ih =>
    intro k hl
    obtain ⟨e, s⟩ := p
    rw [List.sorted_cons] at hl
    obtain ⟨hhead, htail⟩ := hl
    rw [select_results]
    by_cases hk : k = 0
    · simp [hk]
    rw [if_neg hk]
    by_cases hx : excl e
    · rw [if_pos hx]
      exact ih k htail
    rw [if_neg hx]
    by_cases hs : s < 0.01
    · rw [if_pos hs]
      exact ih k htail
    rw [if_neg hs]
    rw [List.sorted_cons]
    constructor
    · intro y hy
      obtain ⟨q, hq, rfl, -, -⟩ := select_results_mem excl mk rest (k - 1) y hy
      rw [hmk, hmk]
      exact round3_mono (hhead q hq)
    · exact ih (k - 1) htail

theorem sort_by_score_desc_sorted {α : Type} (l : List (α × ℝ)) :
    List.Sorted (fun a b : α × ℝ => b.2 ≤ a.2) (sort_by_score_desc l) := by
  haveI : IsTotal (α × ℝ) (fun a b : α × ℝ => b.2 ≤ a.2) := ⟨fun a b => le_total b.2 a.2⟩
  haveI : IsTrans (α × ℝ) (fun a b : α × ℝ => b.2 ≤ a.2) :=
    ⟨fun a b c hab hbc => le_trans hbc hab⟩
  exact List.sorted_insertionSort _ l

theorem transform_ignores_unseen (v : Vectorizer) (tokens extra : List String)
    (hx : ∀ t ∈ extra, t ∉ v.vocabulary) :
    transform v (tokens ++ extra) = transform v tokens := by
  unfold transform
  congr 1
  unfold raw_vector
  apply List.map_congr_left
  intro term hterm
  have hcount : extra.count term = 0 := by
    rw [List.count_eq_zero]
    intro hmem
    exact hx term hmem hterm
  rw [List.count_append, hcount, Nat.add_zero]

/-- Claim C8: a lexical query is transformed with the already-fitted
vocabulary only (tokens outside the vocabulary do not affect the query
vector, and the fitted state is never modified - `transform` is a pure
function of it); for both lexical searches the returned list is sorted by
similarity descending, every returned similarity is at least 0.01, and at
most `top_n` results are returned. -/
theorem lexical_search_spec (cache : LexCache) (qe : Event) (qs : List Event)
    (em : Option String) (es ei : Option ℤ) (top_n : ℕ)
    (v : Vectorizer) (tokens extra : List String)
    (hx : ∀ t ∈ extra, t ∉ v.vocabulary) :
    transform v (tokens ++ extra) = transform v tokens
    ∧ List.Sorted (fun x y : LexEventResult => y.similarity ≤ x.similarity)
        (search_similar_events cache qe em es ei top_n)
    ∧ (search_similar_events cache qe em es ei top_n).Forall (fun r => 0.01 ≤ r.similarity)
    ∧ (search_similar_events cache qe em es ei top_n).length ≤ top_n
    ∧ List.Sorted (fun x y : LexSeqResult => y.similarity ≤ x.similarity)
        (search_similar_sequences cache qs em es top_n)
    ∧ (search_similar_sequences cache qs em es top_n).Forall (fun r => 0.01 ≤ r.similarity)
    ∧ (search_similar_sequences cache qs em es top_n).length ≤ top_n := by
  refine ⟨transform_ignores_unseen v tokens extra hx, ?_, ?_, ?_, ?_, ?_, ?_⟩
  · simp only [search_similar_events]
    exact select_results_sorted _ _ (fun r : LexEventResult => r.similarity)
      (fun e s => rfl) _ top_n (sort_by_score_desc_sorted _)
  · simp only [search_similar_events]
    exact select_results_forall _ _ (fun r : LexEventResult => 0.01 ≤ r.similarity)
      (fun e s hs => round3_ge_threshold (not_lt.mp hs)) _ top_n
  · simp only [search_similar_events]
    exact select_results_length_le _ _ _ top_n
  · simp only [search_similar_sequences]
    exact select_results_sorted _ _ (fun r : LexSeqResult => r.similarity)
      (fun e s => rfl) _ top_n (sort_by_score_desc_sorted _)
  · simp only [search_similar_sequences]
    exact select_results_forall _ _ (fun r : LexSeqResult => 0.01 ≤ r.similarity)
      (fun e s hs => round3_ge_threshold (not_lt.mp hs)) _ top_n
  · simp only [search_similar_sequences]
    exact select_results_length_le _ _ _ top_n

/-- Witness for C8 at concrete inputs (a one-term vocabulary, a query with
one unseen token, an empty corpus cache). -/
theorem lexical_search_spec_witness :
    transform ⟨["a"], fun _ => 1⟩ (["a"] ++ ["b"]) = transform ⟨["a"], fun _ => 1⟩ ["a"]
    ∧ (search_similar_events ⟨⟨[], fun _ => 0⟩, ⟨[], fun _ => 0⟩, [], []⟩ {} none none none
        10).length ≤ 10 :=
  ⟨(lexical_search_spec ⟨⟨[], fun _ => 0⟩, ⟨[], fun _ => 0⟩, [], []⟩ {} [] none none none 10
      ⟨["a"], fun _ => 1⟩ ["a"] ["b"] (by simp)).1,
   (lexical_search_spec ⟨⟨[], fun _ => 0⟩, ⟨[], fun _ => 0⟩, [], []⟩ {} [] none none none 10
      ⟨["a"], fun _ => 1⟩ ["a"] ["b"] (by simp)).2.2.2.1⟩

/-! ### Search result provenance (C4, C9) -/

theorem dtw_search_mem (index : List DtwIndexEntry) (q : List Event) (top_n : ℕ)
    (config : Config) (em : Option String) (es : Option ℤ) (r : DtwResult)
    (hr : r ∈ search_similar_sequences_dtw index q top_n config em es) :
    ∃ e ∈ index,
      (!(dtw_exclude_active em es && decide (some e.matchId = em)
        && decide (some e.sequenceId = es))) = true
      ∧ r = dtw_result_of (q.map extract_event_features) config e := by
  rw [search_similar_sequences_dtw] at hr
  by_cases hq : q = []
  · rw [if_pos hq] at hr
    simp at hr
  rw [if_neg hq] at hr
  have hr2 := List.mem_of_mem_take hr
  rw [(List.perm_insertionSort _ _).mem_iff] at hr2
  rw [List.mem_map] at hr2
  obtain ⟨e, he, rfl⟩ := hr2
  rw [List.mem_filter] at he
  exact ⟨e, he.1, he.2, rfl⟩

theorem dtw_search_length (index : List DtwIndexEntry) (q : List Event) (top_n : ℕ)
    (config : Config) (em : Option String) (es : Option ℤ) :
    (search_similar_sequences_dtw index q top_n config em es).length ≤
      (index.filter (fun e => !(dtw_exclude_active em es && decide (some e.matchId = em)
        && decide (some e.sequenceId = es)))).length := by
  rw [search_similar_sequences_dtw]
  by_cases hq : q = []
  · simp [hq]
  rw [if_neg hq]
  have hlen : ((List.map (dtw_result_of (q.map extract_event_features) config)
      (index.filter (fun e => !(dtw_exclude_active em es && decide (some e.matchId = em)
        && decide (some e.sequenceId = es))))).insertionSort
      (fun a b => a.distance ≤ b.distance)).length
      = (index.filter (fun e => !(dtw_exclude_active em es && decide (some e.matchId = em)
        && decide (some e.sequenceId = es)))).length := by
    rw [(List.perm_insertionSort _ _).length_eq, List.length_map]
  rw [List.length_take, hlen]
  exact min_le_right _ _

theorem length_filter_lt_of_exists {α : Type} (l : List α) (p : α → Bool)
    (h : ∃ x ∈ l, p x = false) : (l.filter p).length < l.length := by
  obtain ⟨x, hx, hpx⟩ := h
  induction l with
  | nil => simp at hx
  | cons a t ih =>
    rcases List.mem_cons.mp hx with rfl | hx'
    · rw [List.filter_cons, if_neg (by simp [hpx])]
      simp only [List.length_cons]
      exact Nat.lt_succ_of_le (List.length_filter_le p t)
    · rw [List.filter_cons]
      have := ih hx'
      split <;> simp <;> omega

theorem lex_seq_search_mem (cache : LexCache) (q : List Event) (em : Option String)
    (es : Option ℤ) (top_n : ℕ) (r : LexSeqResult)
    (hr : r ∈ search_similar_sequences cache q em es top_n) :
    ∃ e ∈ cache.seq_entries,
      decide (some e.matchId = em ∧ some e.sequenceId = es) = false
      ∧ r.matchId = e.matchId ∧ r.sequenceId = e.sequenceId := by
  rw [search_similar_sequences] at hr
  obtain ⟨p, hp, rfl, hexcl, -⟩ := select_results_mem _ _ _ _ _ hr
  rw [sort_by_score_desc, (List.perm_insertionSort _ _).mem_iff] at hp
  rw [score_seq_entries, List.mem_map] at hp
  obtain ⟨e, he, rfl⟩ := hp
  exact ⟨e, he, hexcl, rfl, rfl⟩

theorem lex_seq_search_length (cache : LexCache) (q : List Event) (em : Option String)
    (es : Option ℤ) (top_n : ℕ) :
    (search_similar_sequences cache q em es top_n).length ≤
      (cache.seq_entries.filter
        (fun e => !decide (some e.matchId = em ∧ some e.sequenceId = es))).length := by
  rw [search_similar_sequences]
  refine le_trans (select_results_length_le_filter _ _ _ _) ?_
  rw [sort_by_score_desc, ((List.perm_insertionSort _ _).filter _).length_eq]
  rw [score_seq_entries, List.filter_map, List.length_map]
  exact le_of_eq rfl

/-- Claim C9: with an exclude key `(M, S)` supplied (a nonempty match id for
the alignment search), no returned result of either sequence search carries
that key, and for a 3-entry corpus containing the key the result list has
length at most 2. -/
theorem exclude_key_spec (index : List DtwIndexEntry) (cache : LexCache)
    (q : List Event) (top_n : ℕ) (config : Config) (M : String) (S : ℤ) (hM : M ≠ "") :
    (∀ r ∈ search_similar_sequences_dtw index q top_n config (some M) (some S),
        ¬ (r.matchId = M ∧ r.sequenceId = S))
    ∧ (index.length = 3 → (∃ e ∈ index, e.matchId = M ∧ e.sequenceId = S) →
        (search_similar_sequences_dtw index q top_n config (some M) (some S)).length ≤ 2)
    ∧ (∀ r ∈ search_similar_sequences cache q (some M) (some S) top_n,
        ¬ (r.matchId = M ∧ r.sequenceId = S))
    ∧ (cache.seq_entries.length = 3 →
        (∃ e ∈ cache.seq_entries, e.matchId = M ∧ e.sequenceId = S) →
        (search_similar_sequences cache q (some M) (some S) top_n).length ≤ 2) := by
  have hact : dtw_exclude_active (some M) (some S) = true := by
    simp [dtw_exclude_active, hM]
  refine ⟨?_, ?_, ?_, ?_⟩
  · rintro r hr ⟨hrM, hrS⟩
    obtain ⟨e, he, hkeep, rfl⟩ := dtw_search_mem index q top_n config (some M) (some S) r hr
    rw [hact] at hkeep
    have heM : e.matchId = M := hrM
    have heS : e.sequenceId = S := hrS
    simp [heM, heS] at hkeep
  · intro hlen ⟨e, he, heM, heS⟩
    refine le_trans (dtw_search_length index q top_n config (some M) (some S)) ?_
    have hlt := length_filter_lt_of_exists index
      (fun e => !(dtw_exclude_active (some M) (some S) && decide (some e.matchId = some M)
        && decide (some e.sequenceId = some S)))
      ⟨e, he, by simp [hact, heM, heS]⟩
    omega
  · rintro r hr ⟨hrM, hrS⟩
    obtain ⟨e, he, hexcl, heM, heS⟩ :=
      lex_seq_search_mem cache q (some M) (some S) top_n r hr
    rw [heM] at hrM
    rw [heS] at hrS
    simp [hrM, hrS] at hexcl
  · intro hlen ⟨e, he, heM, heS⟩
    refine le_trans (lex_seq_search_length cache q (some M) (some S) top_n) ?_
    have hlt := length_filter_lt_of_exists cache.seq_entries
      (fun e => !decide (some e.matchId = some M ∧ some e.sequenceId = some S))
      ⟨e, he, by simp [heM, heS]⟩
    omega

/-- Witness for C9 on a concrete 3-sequence corpus (shared by both indexes),
one entry carrying the excluded key `("M", 1)`. -/
theorem exclude_key_spec_witness :
    (("M" : String) ≠ "")
    ∧ ([({ matchId := "M", sequenceId := 1 } : DtwIndexEntry),
        { matchId := "M", sequenceId := 2 }, { matchId := "N", sequenceId := 1 }].length = 3)
    ∧ (search_similar_sequences_dtw
        [{ matchId := "M", sequenceId := 1 }, { matchId := "M", sequenceId := 2 },
          { matchId := "N", sequenceId := 1 }]
        [{}] 10 {} (some "M") (some 1)).length ≤ 2
    ∧ (search_similar_sequences
        ⟨⟨[], fun _ => 0⟩, ⟨[], fun _ => 0⟩, [],
          [{ matchId := "M", sequenceId := 1 }, { matchId := "M", sequenceId := 2 },
            { matchId := "N", sequenceId := 1 }]⟩
        [{}] (some "M") (some 1) 10).length ≤ 2 :=
  ⟨by decide, rfl,
   (exclude_key_spec
      [{ matchId := "M", sequenceId := 1 }, { matchId := "M", sequenceId := 2 },
        { matchId := "N", sequenceId := 1 }]
      ⟨⟨[], fun _ => 0⟩, ⟨[], fun _ => 0⟩, [],
        [{ matchId := "M", sequenceId := 1 }, { matchId := "M", sequenceId := 2 },
          { matchId := "N", sequenceId := 1 }]⟩
      [{}] 10 {} "M" 1 (by decide)).2.1 rfl
      ⟨{ matchId := "M", sequenceId := 1 }, by simp, rfl, rfl⟩,
   (exclude_key_spec
      [{ matchId := "M", sequenceId := 1 }, { matchId := "M", sequenceId := 2 },
        { matchId := "N", sequenceId := 1 }]
      ⟨⟨[], fun _ => 0⟩, ⟨[], fun _ => 0⟩, [],
        [{ matchId := "M", sequenceId := 1 }, { matchId := "M", sequenceId := 2 },
          { matchId := "N", sequenceId := 1 }]⟩
      [{}] 10 {} "M" 1 (by decide)).2.2.2 rfl
      ⟨{ matchId := "M", sequenceId := 1 }, by simp, rfl, rfl⟩⟩

/-! ### Nonnegativity of the cost pipeline (C4) -/

theorem event_type_penalty_nonneg (t1 t2 : String) : 0 ≤ event_type_penalty t1 t2 := by
  simp only [event_type_penalty]
  split_ifs <;> norm_num

theorem pass_type_penalty_nonneg (t1 t2 : String) : 0 ≤ pass_type_penalty t1 t2 := by
  unfold pass_type_penalty
  split_ifs <;> norm_num

theorem shot_type_penalty_nonneg (t1 t2 : String) : 0 ≤ shot_type_penalty t1 t2 := by
  unfold shot_type_penalty
  split_ifs <;> norm_num

theorem pressure_type_penalty_nonneg (t1 t2 : String) : 0 ≤ pressure_type_penalty t1 t2 := by
  unfold pressure_type_penalty
  split_ifs <;> norm_num

theorem foldl_add_nonneg (g : ℚ × ℚ → WithTop ℝ) (l : List (ℚ × ℚ))
    (hg : ∀ s ∈ l, 0 ≤ g s) (c : WithTop ℝ) (hc : 0 ≤ c) :
    0 ≤ l.foldl (fun tot s => tot + g s) c := by
  induction l generalizing c with
  | nil => exact hc
  | cons a t ih =>
    exact ih (fun s hs => hg s (List.mem_cons_of_mem a hs)) _
      (add_nonneg hc (hg a (List.mem_cons_self a t)))

theorem withtop_map_div_nonneg (x : WithTop ℝ) (hx : 0 ≤ x) (c : ℝ) (hc : 0 ≤ c) :
    0 ≤ x.map (fun a => a / c) := by
  cases x with
  | top => exact le_top
  | coe a =>
    rw [WithTop.map_coe]
    exact_mod_cast div_nonneg (by exact_mod_cast hx) hc

theorem avg_nearest_distance_nonneg (source target : List (ℚ × ℚ)) :
    0 ≤ avg_nearest_distance source target := by
  unfold avg_nearest_distance
  exact withtop_map_div_nonneg _
    (foldl_add_nonneg _ _ (fun s _ => nearest_distance_nonneg s target) 0 le_rfl) _
    (by positivity)

theorem player_formation_distance_nonneg (p1 p2 : List (ℚ × ℚ)) :
    0 ≤ player_formation_distance p1 p2 := by
  unfold player_formation_distance
  split_ifs
  · exact le_rfl
  · exact WithTop.coe_nonneg.mpr (by norm_num)
  · exact withtop_map_div_nonneg _
      (add_nonneg (avg_nearest_distance_nonneg _ _) (avg_nearest_distance_nonneg _ _)) 2
      (by norm_num)

theorem withtop_mul_nonneg (a : ℝ) (ha : 0 ≤ a) (x : WithTop ℝ) (hx : 0 ≤ x) :
    0 ≤ (a : WithTop ℝ) * x := by
  cases x with
  | top =>
    by_cases h0 : a = 0
    · subst h0
      rw [WithTop.coe_zero, zero_mul]
    · rw [WithTop.mul_top (by exact_mod_cast h0)]
      exact le_top
  | coe b =>
    rw [← WithTop.coe_mul]
    exact WithTop.coe_nonneg.mpr (mul_nonneg ha (by exact_mod_cast hx))

theorem event_distance_nonneg (f1 f2 : FeatureRec) (config : Config) :
    0 ≤ event_distance f1 f2 config := by
  unfold event_distance
  have hball : (0 : ℝ) ≤ (W_ball_position : ℝ) * euclidean_distance f1.ball_position.1
      f1.ball_position.2 f2.ball_position.1 f2.ball_position.2 :=
    mul_nonneg (by norm_num [W_ball_position]) (euclidean_distance_nonneg _ _ _ _)
  have htype : (0 : ℝ) ≤ (W_event_type : ℝ) *
      ((event_type_penalty f1.event_type f2.event_type : ℚ) : ℝ) :=
    mul_nonneg (by norm_num [W_event_type])
      (by exact_mod_cast event_type_penalty_nonneg f1.event_type f2.event_type)
  refine add_nonneg (add_nonneg (add_nonneg (add_nonneg (add_nonneg ?_ ?_) ?_) ?_) ?_) ?_
  · exact WithTop.coe_nonneg.mpr hball
  · exact WithTop.coe_nonneg.mpr htype
  · exact withtop_mul_nonneg _ (by norm_num [W_player_formation])
      _ (player_formation_distance_nonneg _ _)
  · split_ifs
    · refine WithTop.coe_nonneg.mpr ?_
      exact_mod_cast mul_nonneg (by norm_num [W_pass_type]) (pass_type_penalty_nonneg _ _)
    · exact le_rfl
  · split_ifs
    · refine WithTop.coe_nonneg.mpr ?_
      exact_mod_cast mul_nonneg (by norm_num [W_shot_type]) (shot_type_penalty_nonneg _ _)
    · exact le_rfl
  · split_ifs
    · refine WithTop.coe_nonneg.mpr ?_
      exact_mod_cast mul_nonneg (by norm_num [W_pressure_type])
        (pressure_type_penalty_nonneg _ _)
    · exact le_rfl

theorem dtwCell_fst_cases (D : ℕ × ℕ → DtwCell) (dt : WithTop ℝ) (i j : ℕ) :
    (dtwCell D dt i j).1 = (D (i, j + 1)).1 + dt
    ∨ (dtwCell D dt i j).1 = (D (i + 1, j)).1 + dt
    ∨ (dtwCell D dt i j).1 = (D (i, j)).1 + dt := by
  simp only [dtwCell]
  split_ifs <;> simp

theorem runDtw_go_nonneg (cost : ℕ → ℕ → WithTop ℝ) (hcost : ∀ i j, 0 ≤ cost i j) :
    ∀ (win : List (ℕ × ℕ)) (D : ℕ × ℕ → DtwCell), (∀ p, 0 ≤ (D p).1) →
      ∀ p, 0 ≤ ((win.foldl
        (fun D ij => fun p =>
          if p = (ij.1 + 1, ij.2 + 1) then dtwCell D (cost ij.1 ij.2) ij.1 ij.2 else D p)
        D) p).1 := by
  intro win
  induction win with
  | nil => intro D hD p; exact hD p
  | cons c rest ih =>
    intro D hD p
    rw [List.foldl_cons]
    refine ih _ ?_ p
    intro q
    by_cases hq : q = (c.1 + 1, c.2 + 1)
    · rw [if_pos hq]
      rcases dtwCell_fst_cases D (cost c.1 c.2) c.1 c.2 with h | h | h <;>
        rw [h] <;> exact add_nonneg (hD _) (hcost _ _)
    · rw [if_neg hq]
      exact hD q

theorem dtwInit_fst_nonneg (p : ℕ × ℕ) : 0 ≤ (dtwInit p).1 := by
  unfold dtwInit
  split_ifs <;> simp

theorem runDtw_nonneg (cost : ℕ → ℕ → WithTop ℝ) (hcost : ∀ i j, 0 ≤ cost i j)
    (win : List (ℕ × ℕ)) (p : ℕ × ℕ) : 0 ≤ (runDtw cost win p).1 :=
  runDtw_go_nonneg cost hcost win dtwInit dtwInit_fst_nonneg p

theorem dtwLow_fst_nonneg (n m : ℕ) (window : Option (List (ℕ × ℕ)))
    (cost : ℕ → ℕ → WithTop ℝ) (hcost : ∀ i j, 0 ≤ cost i j) :
    0 ≤ (dtwLow n m window cost).1 :=
  runDtw_nonneg cost hcost _ (n, m)

theorem fastdtwRec_fst_nonneg (x y : List ℚ) (radius : ℕ) (dist : ℚ → ℚ → WithTop ℝ)
    (hdist : ∀ a b, 0 ≤ dist a b) : 0 ≤ (fastdtwRec x y radius dist).1 := by
  rw [fastdtwRec]
  split
  · exact dtwLow_fst_nonneg _ _ _ _ (fun i j => hdist _ _)
  · exact dtwLow_fst_nonneg _ _ _ _ (fun i j => hdist _ _)

theorem dtw_distance_fst_nonneg (seq1 seq2 : List FeatureRec) (config : Config) :
    0 ≤ (dtw_distance seq1 seq2 config).1 := by
  rw [dtw_distance]
  split_ifs
  · exact le_top
  · exact fastdtwRec_fst_nonneg _ _ _ _ (fun a b => event_distance_nonneg _ _ _)

theorem dtw_normalized_similarity_mem (d : WithTop ℝ) (hd : 0 ≤ d) (pl : ℕ) :
    0 ≤ dtw_normalized_similarity d pl ∧ dtw_normalized_similarity d pl ≤ 1 := by
  simp only [dtw_normalized_similarity]
  cases d with
  | top =>
    split_ifs <;> simp [WithTop.map_top, WithTop.untop'_top]
  | coe a =>
    have ha : (0 : ℝ) ≤ a := by exact_mod_cast hd
    split_ifs with hpl
    · rw [WithTop.map_coe, WithTop.map_coe, WithTop.untop'_coe]
      constructor
      · exact le_max_left 0 _
      · refine max_le (by norm_num) ?_
        have : 0 ≤ a / (pl : ℝ) / ((MAX_DISTANCE : ℚ) : ℝ) := by
          apply div_nonneg (div_nonneg ha (by positivity))
          norm_num [MAX_DISTANCE]
        linarith
    · rw [WithTop.map_coe, WithTop.untop'_coe]
      constructor
      · exact le_max_left 0 _
      · refine max_le (by norm_num) ?_
        have : 0 ≤ a / ((MAX_DISTANCE : ℚ) : ℝ) := by
          apply div_nonneg ha
          norm_num [MAX_DISTANCE]
        linarith

/-- Claim C4: a finite alignment distance normalizes to
`max(0, 1 - (distance / pathLength) / MAX_DISTANCE)` with
`pathLength = max(query length, candidate length)`, and for every candidate
returned by the alignment search the similarity is exactly this normalization
of its distance and lies in `[0, 1]`. -/
theorem dtw_search_similarity_spec (index : List DtwIndexEntry) (q : List Event)
    (top_n : ℕ) (config : Config) (em : Option String) (es : Option ℤ)
    (x : ℝ) (pl : ℕ) (hpl : 0 < pl) :
    dtw_normalized_similarity (x : WithTop ℝ) pl
      = max 0 (1 - (x / (pl : ℝ)) / ((MAX_DISTANCE : ℚ) : ℝ))
    ∧ (search_similar_sequences_dtw index q top_n config em es).Forall (fun r =>
        0 ≤ r.similarity ∧ r.similarity ≤ 1
        ∧ ∃ e ∈ index,
            r.distance = (dtw_distance (q.map extract_event_features) e.features config).1
            ∧ r.similarity = dtw_normalized_similarity r.distance
                (max (q.map extract_event_features).length e.features.length)) := by
  constructor
  · simp only [dtw_normalized_similarity]
    rw [if_pos hpl, WithTop.map_coe, WithTop.map_coe, WithTop.untop'_coe]
  · rw [List.forall_iff_forall_mem]
    intro r hr
    obtain ⟨e, he, -, rfl⟩ := dtw_search_mem index q top_n config em es r hr
    have hmem := dtw_normalized_similarity_mem
      (dtw_distance (q.map extract_event_features) e.features config).1
      (dtw_distance_fst_nonneg _ _ _)
      (max (q.map extract_event_features).length e.features.length)
    exact ⟨hmem.1, hmem.2, e, he, rfl, rfl⟩

/-- Witness for C4: the normalization formula applied at distance 30 and
path length 2, plus the per-result property on a concrete one-entry index. -/
theorem dtw_search_similarity_spec_witness :
    dtw_normalized_similarity ((30 : ℝ) : WithTop ℝ) 2
      = max 0 (1 - ((30 : ℝ) / ((2 : ℕ) : ℝ)) / ((MAX_DISTANCE : ℚ) : ℝ))
    ∧ (search_similar_sequences_dtw [{ matchId := "A" }] [{}] 10 {} none none).Forall
        (fun r => 0 ≤ r.similarity ∧ r.similarity ≤ 1
          ∧ ∃ e ∈ [({ matchId := "A" } : DtwIndexEntry)],
              r.distance = (dtw_distance (([{}] : List Event).map extract_event_features)
                  e.features {}).1
              ∧ r.similarity = dtw_normalized_similarity r.distance
                  (max (([{}] : List Event).map extract_event_features).length
                    e.features.length)) :=
  dtw_search_similarity_spec [{ matchId := "A" }] [{}] 10 {} none none 30 2 (by decide)

/-! ### Hybrid merging (C3) -/

theorem key_map_append {α : Type} (keyOf : α → String × ℤ) (l : List α) (a : α)
    (k : String × ℤ) :
    key_map keyOf (l ++ [a]) k = if k = keyOf a then some a else key_map keyOf l k := by
  unfold key_map
  rw [List.foldl_append]
  rfl

theorem key_map_some {α : Type} (keyOf : α → String × ℤ) :
    ∀ (l : List α) (k : String × ℤ) (r : α),
      key_map keyOf l k = some r → r ∈ l ∧ keyOf r = k := by
  intro l
  induction l using List.reverseRecOn with
  | nil => intro k r h; simp [key_map] at h
  | append_singleton l a ih =>
    intro k r h
    rw [key_map_append] at h
    by_cases hk : k = keyOf a
    · rw [if_pos hk] at h
      cases h
      exact ⟨List.mem_append_right l (List.mem_singleton_self a), hk.symm⟩
    · rw [if_neg hk] at h
      obtain ⟨hm, hkk⟩ := ih k r h
      exact ⟨List.mem_append_left _ hm, hkk⟩

theorem key_map_isSome_of_mem {α : Type} (keyOf : α → String × ℤ) :
    ∀ (l : List α) (k : String × ℤ), k ∈ l.map keyOf →
      ∃ r, key_map keyOf l k = some r := by
  intro l
  induction l using List.reverseRecOn with
  | nil => intro k h; simp at h
  | append_singleton l a ih =>
    intro k h
    rw [key_map_append]
    by_cases hk : k = keyOf a
    · exact ⟨a, if_pos hk⟩
    · rw [if_neg hk]
      refine ih k ?_
      rw [List.map_append] at h
      rcases List.mem_append.mp h with h | h
      · exact h
      · simp at h
        exact absurd h.symm (fun hh => hk hh.symm)

theorem key_map_none_of_not_mem {α : Type} (keyOf : α → String × ℤ)
    (l : List α) (k : String × ℤ) (h : k ∉ l.map keyOf) : key_map keyOf l k = none := by
  cases hm : key_map keyOf l k with
  | none => rfl
  | some r =>
    obtain ⟨hmem, hkey⟩ := key_map_some keyOf l k r hm
    exact absurd (hkey ▸ List.mem_map_of_mem keyOf hmem) h

theorem hybrid_merge_one_similarity (od : Option DtwResult) (ol : Option LexSeqResult) :
    (hybrid_merge_one od ol).similarity =
      round3 (HYBRID_WEIGHT_DTW * ((od.map (fun d => d.similarity)).getD 0)
        + HYBRID_WEIGHT_TFIDF * ((ol.map (fun l => l.similarity)).getD 0)) := by
  cases od <;> cases ol <;> rfl

theorem hybrid_merge_one_key (dtwR : List DtwResult) (lexR : List LexSeqResult)
    (k : String × ℤ) (hk : k ∈ dtwR.map dtw_key ∨ k ∈ lexR.map lex_key) :
    ((hybrid_merge_one (key_map dtw_key dtwR k) (key_map lex_key lexR k)).matchId,
      (hybrid_merge_one (key_map dtw_key dtwR k) (key_map lex_key lexR k)).sequenceId) = k := by
  cases hd : key_map dtw_key dtwR k with
  | some d =>
    have hkey := (key_map_some dtw_key dtwR k d hd).2
    cases hl : key_map lex_key lexR k <;>
      simpa [hybrid_merge_one, dtw_key] using hkey
  | none =>
    cases hl : key_map lex_key lexR k with
    | some l =>
      have hkey := (key_map_some lex_key lexR k l hl).2
      simpa [hybrid_merge_one, lex_key] using hkey
    | none =>
      rcases hk with hk | hk
      · obtain ⟨r, hr⟩ := key_map_isSome_of_mem dtw_key dtwR k hk
        rw [hr] at hd
        cases hd
      · obtain ⟨r, hr⟩ := key_map_isSome_of_mem lex_key lexR k hk
        rw [hr] at hl
        cases hl

theorem hybrid_merge_mem (dtwR : List DtwResult) (lexR : List LexSeqResult) (top_n : ℕ)
    (r : HybridResult) (hr : r ∈ hybrid_merge dtwR lexR top_n) :
    ∃ k, (k ∈ dtwR.map dtw_key ∨ k ∈ lexR.map lex_key)
      ∧ r = hybrid_merge_one (key_map dtw_key dtwR k) (key_map lex_key lexR k) := by
  rw [hybrid_merge] at hr
  have hr2 := List.mem_of_mem_take hr
  rw [(List.perm_insertionSort _ _).mem_iff, List.mem_map] at hr2
  obtain ⟨k, hk, rfl⟩ := hr2
  rw [hybrid_all_keys, List.mem_dedup, List.mem_append] at hk
  exact ⟨k, hk, rfl⟩

theorem hybrid_merge_sorted (dtwR : List DtwResult) (lexR : List LexSeqResult) (top_n : ℕ) :
    List.Sorted (fun a b : HybridResult => b.similarity ≤ a.similarity)
      (hybrid_merge dtwR lexR top_n) := by
  rw [hybrid_merge]
  haveI : IsTotal HybridResult (fun a b : HybridResult => b.similarity ≤ a.similarity) :=
    ⟨fun a b => le_total b.similarity a.similarity⟩
  haveI : IsTrans HybridResult (fun a b : HybridResult => b.similarity ≤ a.similarity) :=
    ⟨fun a b c hab hbc => le_trans hbc hab⟩
  exact List.Pairwise.sublist (List.take_sublist _ _) (List.sorted_insertionSort _ _)

theorem hybrid_merge_length (dtwR : List DtwResult) (lexR : List LexSeqResult) (top_n : ℕ) :
    (hybrid_merge dtwR lexR top_n).length ≤ top_n := by
  rw [hybrid_merge, List.length_take]
  exact min_le_left _ _

/-- Claim C3: every hybrid result's combined score is
`0.6 * dtwSimilarity + 0.4 * lexicalSimilarity` (rounded to 3 decimals as the
code does), where each term is looked up by the `(matchId, sequenceId)` key
in the corresponding internal ranking and a missing candidate contributes
exactly 0; every result's key comes from one of the two rankings; the final
list is sorted by combined score descending and truncated to `top_n`. -/
theorem hybrid_search_spec (dtw_index : List DtwIndexEntry) (cache : LexCache)
    (q : List Event) (em : Option String) (es : Option ℤ) (top_n : ℕ) :
    (search_similar_sequences_hybrid dtw_index cache q em es top_n).Forall (fun r =>
      r.similarity = round3 (
        HYBRID_WEIGHT_DTW * (((key_map dtw_key (hybrid_dtw_results dtw_index q em es))
            (r.matchId, r.sequenceId)).map (fun d => d.similarity)).getD 0
        + HYBRID_WEIGHT_TFIDF * (((key_map lex_key (hybrid_tfidf_results cache q em es))
            (r.matchId, r.sequenceId)).map (fun l => l.similarity)).getD 0)
      ∧ ((r.matchId, r.sequenceId) ∈ (hybrid_dtw_results dtw_index q em es).map dtw_key
        ∨ (r.matchId, r.sequenceId) ∈ (hybrid_tfidf_results cache q em es).map lex_key))
    ∧ (∀ k, k ∉ (hybrid_dtw_results dtw_index q em es).map dtw_key →
        (((key_map dtw_key (hybrid_dtw_results dtw_index q em es)) k).map
          (fun d => d.similarity)).getD 0 = 0)
    ∧ (∀ k, k ∉ (hybrid_tfidf_results cache q em es).map lex_key →
        (((key_map lex_key (hybrid_tfidf_results cache q em es)) k).map
          (fun l => l.similarity)).getD 0 = 0)
    ∧ List.Sorted (fun a b : HybridResult => b.similarity ≤ a.similarity)
        (search_similar_sequences_hybrid dtw_index cache q em es top_n)
    ∧ (search_similar_sequences_hybrid dtw_index cache q em es top_n).length ≤ top_n := by
  refine ⟨?_, ?_, ?_, hybrid_merge_sorted _ _ _, hybrid_merge_length _ _ _⟩
  · rw [List.forall_iff_forall_mem]
    intro r hr
    obtain ⟨k, hk, rfl⟩ := hybrid_merge_mem _ _ _ r hr
    have hkey := hybrid_merge_one_key (hybrid_dtw_results dtw_index q em es)
      (hybrid_tfidf_results cache q em es) k hk
    rw [hkey]
    exact ⟨hybrid_merge_one_similarity _ _, hkey ▸ hk⟩
  · intro k hk
    rw [key_map_none_of_not_mem dtw_key _ k hk]
    rfl
  · intro k hk
    rw [key_map_none_of_not_mem lex_key _ k hk]
    rfl

/-- Witness for C3 on concrete (empty) corpus states: the missing-term
lookups are exactly 0 and the result list is empty, sorted and within
bounds. -/
theorem hybrid_search_spec_witness :
    ((((key_map dtw_key (hybrid_dtw_results [] [] none none)) ("A", 1)).map
        (fun d => d.similarity)).getD 0 = 0)
    ∧ (search_similar_sequences_hybrid [] ⟨⟨[], fun _ => 0⟩, ⟨[], fun _ => 0⟩, [], []⟩ []
        none none 10).length ≤ 10 :=
  ⟨(hybrid_search_spec [] ⟨⟨[], fun _ => 0⟩, ⟨[], fun _ => 0⟩, [], []⟩ [] none none
      10).2.1 ("A", 1) (by simp [hybrid_dtw_results, search_similar_sequences_dtw]),
   (hybrid_search_spec [] ⟨⟨[], fun _ => 0⟩, ⟨[], fun _ => 0⟩, [], []⟩ [] none none
      10).2.2.2.2⟩

/-! ### The alignment path properties (C5): the cost dict -/

theorem rowLt_irrefl (a : ℕ × ℕ) : ¬ rowLt a a := by
  simp [rowLt]

theorem rowLt_ne {a b : ℕ × ℕ} (h : rowLt a b) : a ≠ b :=
  fun he => rowLt_irrefl b (he ▸ h)

theorem rowLt_trans' {a b c : ℕ × ℕ} (hab : rowLt a b) (hbc : rowLt b c) : rowLt a c := by
  simp only [rowLt] at *
  omega

theorem rowLt_shift {a b : ℕ × ℕ} (h : rowLt a b) :
    rowLt (shiftCell a) (shiftCell b) := by
  simp only [rowLt, shiftCell] at *
  omega

theorem runDtw_eq_foldl (cost : ℕ → ℕ → WithTop ℝ) (win : List (ℕ × ℕ)) :
    runDtw cost win = win.foldl (dtwStep cost) dtwInit := rfl

theorem foldl_dtwStep_not_mem (cost : ℕ → ℕ → WithTop ℝ) :
    ∀ (win : List (ℕ × ℕ)) (D0 : ℕ × ℕ → DtwCell) (p : ℕ × ℕ),
      p ∉ win.map shiftCell → win.foldl (dtwStep cost) D0 p = D0 p := by
  intro win
  induction win with
  | nil => intro D0 p _; rfl
  | cons c rest ih =>
    intro D0 p hp
    rw [List.map_cons, List.mem_cons, not_or] at hp
    rw [List.foldl_cons, ih _ p hp.2]
    rw [dtwStep, if_neg]
    simpa [shiftCell] using hp.1

theorem dtwCell_congr (D1 D2 : ℕ × ℕ → DtwCell) (dt : WithTop ℝ) (i j : ℕ)
    (h1 : D1 (i, j + 1) = D2 (i, j + 1)) (h2 : D1 (i + 1, j) = D2 (i + 1, j))
    (h3 : D1 (i, j) = D2 (i, j)) : dtwCell D1 dt i j = dtwCell D2 dt i j := by
  simp only [dtwCell, h1, h2, h3]

theorem runDtw_recurrence (cost : ℕ → ℕ → WithTop ℝ) (win : List (ℕ × ℕ))
    (hsort : win.Pairwise rowLt) (c : ℕ × ℕ) (hc : c ∈ win) :
    runDtw cost win (shiftCell c) = dtwCell (runDtw cost win) (cost c.1 c.2) c.1 c.2 := by
  obtain ⟨w1, w2, rfl⟩ := List.append_of_mem hc
  have hw2 : ∀ x ∈ w2, rowLt c x := by
    rw [List.pairwise_append] at hsort
    exact (List.pairwise_cons.mp hsort.2.1).1
  have hreads : ∀ q, rowLt q (shiftCell c) →
      runDtw cost (w1 ++ c :: w2) q = w1.foldl (dtwStep cost) dtwInit q := by
    intro q hq
    rw [runDtw_eq_foldl, List.foldl_append, List.foldl_cons]
    rw [foldl_dtwStep_not_mem]
    · rw [dtwStep, if_neg]
      intro he
      exact rowLt_irrefl _ (by simpa [shiftCell] using he ▸ hq)
    · rw [List.mem_map]
      rintro ⟨x, hx, rfl⟩
      exact rowLt_irrefl _ (rowLt_trans' hq (rowLt_shift (hw2 x hx)))
  have hself : runDtw cost (w1 ++ c :: w2) (shiftCell c) =
      dtwCell (w1.foldl (dtwStep cost) dtwInit) (cost c.1 c.2) c.1 c.2 := by
    rw [runDtw_eq_foldl, List.foldl_append, List.foldl_cons]
    rw [foldl_dtwStep_not_mem]
    · rw [dtwStep, if_pos]
      rfl
    · rw [List.mem_map]
      rintro ⟨x, hx, hx2⟩
      exact rowLt_irrefl _ (hx2 ▸ rowLt_shift (hw2 x hx))
  rw [hself]
  refine dtwCell_congr _ _ _ _ _ ?_ ?_ ?_
  · exact (hreads (c.1, c.2 + 1) (Or.inl (by simp [shiftCell]))).symm
  · exact (hreads (c.1 + 1, c.2)
      (Or.inr ⟨by simp [shiftCell], by simp [shiftCell]⟩)).symm
  · exact (hreads (c.1, c.2) (Or.inl (by simp [shiftCell]))).symm

theorem runDtw_not_shift (cost : ℕ → ℕ → WithTop ℝ) (win : List (ℕ × ℕ)) (p : ℕ × ℕ)
    (hp : p ∉ win.map shiftCell) : runDtw cost win p = dtwInit p :=
  foldl_dtwStep_not_mem cost win dtwInit p hp

theorem runDtw_zero (cost : ℕ → ℕ → WithTop ℝ) (win : List (ℕ × ℕ)) :
    runDtw cost win (0, 0) = ((0 : WithTop ℝ), some (0, 0)) := by
  rw [runDtw_not_shift]
  · rw [dtwInit, if_pos rfl]
  · rw [List.mem_map]
    rintro ⟨x, -, hx⟩
    simp [shiftCell, Prod.ext_iff] at hx

theorem runDtw_finite_cases (cost : ℕ → ℕ → WithTop ℝ) (win : List (ℕ × ℕ)) (p : ℕ × ℕ)
    (hfin : (runDtw cost win p).1 ≠ ⊤) :
    p = (0, 0) ∨ ∃ c ∈ win, p = shiftCell c := by
  by_contra hcon
  push_neg at hcon
  have hns : p ∉ win.map shiftCell := by
    rw [List.mem_map]
    rintro ⟨x, hx, rfl⟩
    exact hcon.2 x hx rfl
  rw [runDtw_not_shift cost win p hns, dtwInit, if_neg hcon.1] at hfin
  exact hfin rfl

theorem dtwCell_spec (D : ℕ × ℕ → DtwCell) (dt : WithTop ℝ) (i j : ℕ) :
    ∃ r, (r = (i, j + 1) ∨ r = (i + 1, j) ∨ r = (i, j))
      ∧ dtwCell D dt i j = ((D r).1 + dt, some r) := by
  simp only [dtwCell]
  split_ifs with hb hc hc
  · exact ⟨(i, j), Or.inr (Or.inr rfl), rfl⟩
  · exact ⟨(i + 1, j), Or.inr (Or.inl rfl), rfl⟩
  · exact ⟨(i, j), Or.inr (Or.inr rfl), rfl⟩
  · exact ⟨(i, j + 1), Or.inl rfl, rfl⟩

theorem dtwCell_fst_le (D : ℕ × ℕ → DtwCell) (dt : WithTop ℝ) (i j : ℕ) :
    (dtwCell D dt i j).1 ≤ (D (i, j + 1)).1 + dt
    ∧ (dtwCell D dt i j).1 ≤ (D (i + 1, j)).1 + dt
    ∧ (dtwCell D dt i j).1 ≤ (D (i, j)).1 + dt := by
  simp only [dtwCell]
  split_ifs with hb hc hc <;> refine ⟨?_, ?_, ?_⟩ <;> simp only []
  · exact le_of_lt (hc.trans (hb.trans_le le_rfl))
  · exact le_of_lt hc
  · exact le_rfl
  · exact le_of_lt hb
  · exact le_rfl
  · exact not_lt.mp hc
  · exact le_of_lt hc
  · exact le_of_lt (hc.trans_le (not_lt.mp hb))
  · exact le_rfl
  · exact le_rfl
  · exact not_lt.mp hb
  · exact not_lt.mp hc

theorem runDtw_head_finite (cost : ℕ → ℕ → WithTop ℝ) (win : List (ℕ × ℕ))
    (hsort : win.Pairwise rowLt) (hfin : ∀ i j, cost i j ≠ ⊤) (h0 : (0, 0) ∈ win) :
    (runDtw cost win (shiftCell (0, 0))).1 ≠ ⊤ := by
  have hrec := runDtw_recurrence cost win hsort (0, 0) h0
  have hle := (dtwCell_fst_le (runDtw cost win) (cost 0 0) 0 0).2.2
  rw [← hrec] at hle
  rw [runDtw_zero, shiftCell] at hle
  simp only [zero_add] at hle
  intro htop
  rw [shiftCell] at htop
  rw [htop, top_le_iff] at hle
  exact hfin 0 0 hle

theorem runDtw_step_finite (cost : ℕ → ℕ → WithTop ℝ) (win : List (ℕ × ℕ))
    (hsort : win.Pairwise rowLt) (hfin : ∀ i j, cost i j ≠ ⊤) (a b : ℕ × ℕ)
    (hab : StairStep a b) (hb : b ∈ win)
    (ha : (runDtw cost win (shiftCell a)).1 ≠ ⊤) :
    (runDtw cost win (shiftCell b)).1 ≠ ⊤ := by
  have hrec := runDtw_recurrence cost win hsort b hb
  have hle := dtwCell_fst_le (runDtw cost win) (cost b.1 b.2) b.1 b.2
  rw [← hrec] at hle
  have hstep : (runDtw cost win (shiftCell b)).1 ≤
      (runDtw cost win (shiftCell a)).1 + cost b.1 b.2 := by
    rcases hab with ⟨h1, h2⟩ | ⟨h1, h2⟩ | ⟨h1, h2⟩
    · have : shiftCell a = (b.1, b.2 + 1) := by
        simp only [shiftCell, Prod.ext_iff]
        omega
      rw [this]
      exact hle.1
    · have : shiftCell a = (b.1 + 1, b.2) := by
        simp only [shiftCell, Prod.ext_iff]
        omega
      rw [this]
      exact hle.2.1
    · have : shiftCell a = (b.1, b.2) := by
        simp only [shiftCell, Prod.ext_iff]
        omega
      rw [this]
      exact hle.2.2
  exact ne_top_of_le_ne_top (WithTop.add_ne_top.mpr ⟨ha, hfin b.1 b.2⟩) hstep

theorem runDtw_chain_finite (cost : ℕ → ℕ → WithTop ℝ) (win : List (ℕ × ℕ))
    (hsort : win.Pairwise rowLt) (hfin : ∀ i j, cost i j ≠ ⊤) :
    ∀ (ch : List (ℕ × ℕ)) (a : ℕ × ℕ), List.Chain StairStep a ch →
      (∀ x ∈ ch, x ∈ win) → (runDtw cost win (shiftCell a)).1 ≠ ⊤ →
      (runDtw cost win (shiftCell ((a :: ch).getLast (List.cons_ne_nil a ch)))).1 ≠ ⊤ := by
  intro ch
  induction ch with
  | nil => intro a _ _ ha; simpa using ha
  | cons b ch' ih =>
    intro a hch hmem ha
    rw [List.chain_cons] at hch
    have hb := runDtw_step_finite cost win hsort hfin a b hch.1
      (hmem b (List.mem_cons_self b ch')) ha
    have := ih b hch.2 (fun x hx => hmem x (List.mem_cons_of_mem b hx)) hb
    rwa [List.getLast_cons (List.cons_ne_nil b ch')]

theorem backtrack_zero (D : ℕ × ℕ → DtwCell) (fuel : ℕ) (acc : List (ℕ × ℕ)) :
    backtrack D fuel (0, 0) acc = some acc := by
  cases fuel <;> rfl

theorem backtrack_succ (D : ℕ × ℕ → DtwCell) (fuel i j : ℕ) (acc : List (ℕ × ℕ))
    (hij : (i, j) ≠ (0, 0)) :
    backtrack D (fuel + 1) (i, j) acc =
      match (D (i, j)).2 with
      | none => none
      | some p => backtrack D fuel p ((i - 1, j - 1) :: acc) := by
  match i, j with
  | 0, 0 => exact absurd rfl hij
  | i + 1, j => rfl
  | 0, j + 1 => rfl

theorem backtrack_spec (cost : ℕ → ℕ → WithTop ℝ) (win : List (ℕ × ℕ))
    (hsort : win.Pairwise rowLt) :
    ∀ (fuel : ℕ) (p : ℕ × ℕ), p.1 + p.2 ≤ fuel → (runDtw cost win p).1 ≠ ⊤ →
      p ≠ (0, 0) → ∀ acc, ∃ pth,
        backtrack (runDtw cost win) fuel p acc = some (pth ++ acc)
        ∧ pth ≠ []
        ∧ pth.head? = some (0, 0)
        ∧ pth.getLast? = some (p.1 - 1, p.2 - 1)
        ∧ List.Chain' StairStep pth
        ∧ (runDtw cost win p).1 = (pth.map (fun c => cost c.1 c.2)).sum
        ∧ (∀ c ∈ pth, c.1 ≤ p.1 - 1 ∧ c.2 ≤ p.2 - 1) := by
  intro fuel
  induction fuel with
  | zero =>
    intro p hle _ hp _
    exact absurd (Prod.ext_iff.mpr ⟨by omega, by omega⟩) hp
  | succ fuel ih =>
    intro p hle hfinp hp acc
    obtain hc0 | ⟨c, hc, rfl⟩ := runDtw_finite_cases cost win p hfinp
    · exact absurd hc0 hp
    have hrec := runDtw_recurrence cost win hsort c hc
    obtain ⟨r, hropt, hcell⟩ := dtwCell_spec (runDtw cost win) (cost c.1 c.2) c.1 c.2
    rw [hcell] at hrec
    have hsnd : (runDtw cost win (shiftCell c)).2 = some r := by rw [hrec]
    have hfst : (runDtw cost win (shiftCell c)).1 = (runDtw cost win r).1 + cost c.1 c.2 := by
      rw [hrec]
    have hparts := WithTop.add_ne_top.mp (hfst ▸ hfinp)
    have hbt : backtrack (runDtw cost win) (fuel + 1) (shiftCell c) acc =
        backtrack (runDtw cost win) fuel r (c :: acc) := by
      have hsnd' : (runDtw cost win (c.1 + 1, c.2 + 1)).2 = some r := by
        simpa [shiftCell] using hsnd
      rw [shiftCell, backtrack_succ _ _ _ _ _ (by simp), hsnd']
      simp
    by_cases hr0 : r = (0, 0)
    · subst hr0
      have hc00 : c = (0, 0) := by
        rcases hropt with h | h | h <;> rw [Prod.ext_iff] at h <;>
          [skip; skip; exact Prod.ext_iff.mpr ⟨h.1.symm, h.2.symm⟩] <;> omega
      subst hc00
      refine ⟨[(0, 0)], ?_, by simp, by simp, by simp [shiftCell], List.chain'_singleton _,
        ?_, by simp⟩
      · rw [hbt, backtrack_zero]
        rfl
      · rw [hfst, runDtw_zero]
        simp
    · have hfinr : (runDtw cost win r).1 ≠ ⊤ := hparts.1
      obtain hr00 | ⟨c', hc', rfl⟩ := runDtw_finite_cases cost win r hfinr
      · exact absurd hr00 hr0
      have hrle : (shiftCell c').1 + (shiftCell c').2 ≤ fuel := by
        rcases hropt with h | h | h <;> rw [Prod.ext_iff] at h <;>
          simp only [shiftCell] at * <;> omega
      obtain ⟨pth', hbt', hne', hhead', hlast', hchain', hsum', hbnd'⟩ :=
        ih (shiftCell c') hrle hfinr (by simp [shiftCell, Prod.ext_iff]) (c :: acc)
      refine ⟨pth' ++ [c], ?_, by simp, ?_, ?_, ?_, ?_, ?_⟩
      · rw [hbt, hbt', List.append_assoc]
        rfl
      · cases pth' with
        | nil => exact absurd rfl hne'
        | cons x t => simpa using hhead'
      · rw [List.getLast?_concat]
        simp only [shiftCell]
        simp
      · rw [List.chain'_append]
        refine ⟨hchain', List.chain'_singleton _, ?_⟩
        intro x hx y hy
        rw [hlast'] at hx
        simp only [Option.mem_def, Option.some_inj] at hx
        simp only [List.head?_cons, Option.mem_def, Option.some_inj] at hy
        subst hx
        subst hy
        rcases hropt with h | h | h <;> rw [Prod.ext_iff] at h <;>
          simp only [shiftCell] at h <;> simp only [StairStep, shiftCell] <;> omega
      · rw [hfst, hsum', List.map_append, List.sum_append]
        simp
      · intro x hx
        rcases List.mem_append.mp hx with hx | hx
        · have := hbnd' x hx
          rcases hropt with h | h | h <;> rw [Prod.ext_iff] at h <;>
            simp only [shiftCell] at * <;> omega
        · simp only [List.mem_singleton] at hx
          subst hx
          simp only [shiftCell]
          omega

theorem dtwLow_spec (cost : ℕ → ℕ → WithTop ℝ) (n m : ℕ) (window : Option (List (ℕ × ℕ)))
    (hn : 0 < n) (hm : 0 < m)
    (hsort : (window.getD (fullWindow n m)).Pairwise rowLt)
    (hfin : ∀ i j, cost i j ≠ ⊤)
    (ch : List (ℕ × ℕ))
    (hch : List.Chain StairStep (0, 0) ch)
    (hmem : ∀ x ∈ ch, x ∈ window.getD (fullWindow n m))
    (h00 : (0, 0) ∈ window.getD (fullWindow n m))
    (hend : ((0, 0) :: ch).getLast (List.cons_ne_nil _ _) = (n - 1, m - 1)) :
    ∃ pth, dtwLow n m window cost = ((pth.map (fun c => cost c.1 c.2)).sum, pth)
      ∧ pth ≠ [] ∧ pth.head? = some (0, 0) ∧ pth.getLast? = some (n - 1, m - 1)
      ∧ List.Chain' StairStep pth
      ∧ ∀ c ∈ pth, c.1 ≤ n - 1 ∧ c.2 ≤ m - 1 := by
  set win := window.getD (fullWindow n m) with hwin
  have hhead := runDtw_head_finite cost win hsort hfin h00
  have hfinlast := runDtw_chain_finite cost win hsort hfin ch (0, 0) hch hmem hhead
  rw [hend] at hfinlast
  have hshift : shiftCell (n - 1, m - 1) = (n, m) := by
    simp only [shiftCell]
    rw [Prod.mk.injEq]
    omega
  rw [hshift] at hfinlast
  obtain ⟨pth, hbt, hne, hhd, hlast, hchain, hsum, hbnd⟩ :=
    backtrack_spec cost win hsort (n + m) (n, m) (le_refl _) hfinlast
      (by intro h; rw [Prod.mk.injEq] at h; omega) []
  refine ⟨pth, ?_, hne, hhd, hlast, hchain, hbnd⟩
  simp only [dtwLow, ← hwin]
  rw [Prod.mk.injEq]
  refine ⟨hsum, ?_⟩
  rw [hbt]
  simp

/-! ### Finiteness of the event cost -/

theorem withtop_map_ne_top (x : WithTop ℝ) (f : ℝ → ℝ) (h : x ≠ ⊤) : x.map f ≠ ⊤ := by
  cases x with
  | top => exact absurd rfl h
  | coe a => simp [WithTop.map_coe]

theorem nearest_distance_ne_top (src : ℚ × ℚ) (target : List (ℚ × ℚ)) (h : target ≠ []) :
    nearest_distance src target ≠ ⊤ := by
  obtain ⟨t, rest, rfl⟩ := List.exists_cons_of_ne_nil h
  have hle := foldl_min_le_mem (fun t => euclidean_distance src.1 src.2 t.1 t.2)
    (t :: rest) t (List.mem_cons_self t rest) ⊤
  exact ne_top_of_le_ne_top (WithTop.coe_ne_top) hle

theorem foldl_add_ne_top (g : ℚ × ℚ → WithTop ℝ) (l : List (ℚ × ℚ))
    (hg : ∀ s ∈ l, g s ≠ ⊤) (c : WithTop ℝ) (hc : c ≠ ⊤) :
    l.foldl (fun tot s => tot + g s) c ≠ ⊤ := by
  induction l generalizing c with
  | nil => exact hc
  | cons a t ih =>
    exact ih (fun s hs => hg s (List.mem_cons_of_mem a hs)) _
      (WithTop.add_ne_top.mpr ⟨hc, hg a (List.mem_cons_self a t)⟩)

theorem avg_nearest_distance_ne_top (source target : List (ℚ × ℚ)) (h : target ≠ []) :
    avg_nearest_distance source target ≠ ⊤ := by
  unfold avg_nearest_distance
  exact withtop_map_ne_top _ _
    (foldl_add_ne_top _ _ (fun s _ => nearest_distance_ne_top s target h) 0
      (by exact WithTop.zero_ne_top))

theorem player_formation_distance_ne_top (p1 p2 : List (ℚ × ℚ)) :
    player_formation_distance p1 p2 ≠ ⊤ := by
  unfold player_formation_distance
  split_ifs with h1 h2
  · exact WithTop.zero_ne_top
  · exact WithTop.coe_ne_top
  · push_neg at h1
    exact withtop_map_ne_top _ _ (WithTop.add_ne_top.mpr
      ⟨avg_nearest_distance_ne_top _ _ h1.2, avg_nearest_distance_ne_top _ _ h1.1⟩)

theorem withtop_coe_mul_ne_top (a : ℝ) (x : WithTop ℝ) (hx : x ≠ ⊤) :
    (a : WithTop ℝ) * x ≠ ⊤ := by
  cases x with
  | top => exact absurd rfl hx
  | coe b =>
    rw [← WithTop.coe_mul]
    exact WithTop.coe_ne_top

theorem event_distance_ne_top (f1 f2 : FeatureRec) (config : Config) :
    event_distance f1 f2 config ≠ ⊤ := by
  unfold event_distance
  refine WithTop.add_ne_top.mpr ⟨WithTop.add_ne_top.mpr ⟨WithTop.add_ne_top.mpr
    ⟨WithTop.add_ne_top.mpr ⟨WithTop.add_ne_top.mpr ⟨WithTop.coe_ne_top, WithTop.coe_ne_top⟩,
      withtop_coe_mul_ne_top _ _ (player_formation_distance_ne_top _ _)⟩, ?_⟩, ?_⟩, ?_⟩ <;>
    split_ifs <;> first
      | exact WithTop.coe_ne_top
      | exact WithTop.zero_ne_top

/-! ### The full window -/

theorem mem_fullWindow (n m : ℕ) (c : ℕ × ℕ) : c ∈ fullWindow n m ↔ c.1 < n ∧ c.2 < m := by
  cases c with
  | mk i j =>
    simp only [fullWindow, List.mem_flatMap, List.mem_map, List.mem_range, Prod.mk.injEq]
    constructor
    · rintro ⟨a, ha, b, hb, rfl, rfl⟩
      exact ⟨ha, hb⟩
    · rintro ⟨hi, hj⟩
      exact ⟨i, hi, j, hj, rfl, rfl⟩

theorem fullWindow_pairwise (n m : ℕ) : (fullWindow n m).Pairwise rowLt := by
  induction n with
  | zero => simp [fullWindow]
  | succ k ih =>
    have hsplit : fullWindow (k + 1) m = fullWindow k m ++ (List.range m).map (fun j => (k, j)) := by
      rw [fullWindow, fullWindow, List.range_succ, List.flatMap_append]
      simp
    rw [hsplit, List.pairwise_append]
    refine ⟨ih, ?_, ?_⟩
    · rw [List.pairwise_map]
      exact (List.pairwise_lt_range m).imp (fun h => Or.inr ⟨rfl, h⟩)
    · intro x hx y hy
      rw [List.mem_map] at hy
      obtain ⟨j, -, rfl⟩ := hy
      exact Or.inl ((mem_fullWindow k m x).mp hx).1

/-! ### The explicit staircase through the full window -/

theorem lChain_head (n m : ℕ) (hm : 0 < m) : (lChain n m).head? = some (0, 0) := by
  obtain ⟨m', rfl⟩ := Nat.exists_eq_succ_of_ne_zero (Nat.pos_iff_ne_zero.mp hm)
  rw [lChain, List.range_eq_range', List.range'_succ]
  rfl

theorem lChain_chain (n m : ℕ) : List.Chain' StairStep (lChain n m) := by
  rw [lChain, List.chain'_append]
  refine ⟨?_, ?_, ?_⟩
  · rw [List.chain'_map]
    cases m with
    | zero => simp
    | succ m' =>
      rw [List.chain'_range_succ]
      intro i _
      exact Or.inr (Or.inl ⟨rfl, rfl⟩)
  · rw [List.chain'_map]
    cases n with
    | zero => simp
    | succ n' =>
      cases n' with
      | zero => simp
      | succ n'' =>
        rw [Nat.succ_sub_one, List.chain'_range_succ]
        intro i _
        exact Or.inl ⟨rfl, rfl⟩
  · intro x hx y hy
    cases m with
    | zero => simp at hx
    | succ m' =>
      simp only [List.range_succ, List.map_append, List.map_cons, List.map_nil] at hx
      rw [List.getLast?_concat] at hx
      rw [Option.mem_def, Option.some_inj] at hx
      subst hx
      cases hn : n - 1 with
      | zero => rw [hn] at hy; simp at hy
      | succ k =>
        rw [hn, List.range_eq_range', List.range'_succ] at hy
        simp only [List.map_cons, List.head?_cons, Option.mem_def, Option.some_inj] at hy
        subst hy
        exact Or.inl ⟨rfl, by omega⟩

theorem lChain_getLast (n m : ℕ) (hn : 0 < n) (hm : 0 < m) :
    (lChain n m).getLast? = some (n - 1, m - 1) := by
  rw [lChain]
  cases hk : n - 1 with
  | zero =>
    obtain ⟨m', rfl⟩ := Nat.exists_eq_succ_of_ne_zero (Nat.pos_iff_ne_zero.mp hm)
    simp only [List.range_zero, List.map_nil, List.append_nil]
    simp only [List.range_succ, List.map_append, List.map_cons, List.map_nil]
    rw [List.getLast?_concat, Option.some_inj, Prod.mk.injEq]
    omega
  | succ k =>
    rw [List.getLast?_append_of_ne_nil _ (by rw [List.range_succ]; simp)]
    simp only [List.range_succ, List.map_append, List.map_cons, List.map_nil]
    rw [List.getLast?_concat, Option.some_inj, Prod.mk.injEq]
    omega

theorem lChain_mem (n m : ℕ) (hn : 0 < n) (hm : 0 < m) (c : ℕ × ℕ)
    (hc : c ∈ lChain n m) : c.1 < n ∧ c.2 < m := by
  rw [lChain, List.mem_append] at hc
  rcases hc with hc | hc <;> rw [List.mem_map] at hc <;> obtain ⟨a, ha, rfl⟩ := hc <;>
    rw [List.mem_range] at ha <;> constructor <;> simp only [] <;> omega

/-! ### Coordinate monotonicity along staircase chains -/

theorem stair_chain_le (ch : List (ℕ × ℕ)) (a : ℕ × ℕ) (h : List.Chain StairStep a ch) :
    ∀ c ∈ ch, a.1 ≤ c.1 ∧ a.2 ≤ c.2 := by
  induction ch generalizing a with
  | nil => intro c hc; simp at hc
  | cons b t ih =>
    rw [List.chain_cons] at h
    intro c hc
    rcases List.mem_cons.mp hc with rfl | hc
    · rcases h.1 with ⟨h1, h2⟩ | ⟨h1, h2⟩ | ⟨h1, h2⟩ <;> omega
    · have hb := ih b h.2 c hc
      rcases h.1 with ⟨h1, h2⟩ | ⟨h1, h2⟩ | ⟨h1, h2⟩ <;> omega

/-! ### Length of `__reduce_by_half` -/

theorem reduce_by_half_length (l : List ℚ) : (reduce_by_half l).length = l.length / 2 := by
  have key : ∀ (n : ℕ) (l : List ℚ), l.length ≤ n →
      (reduce_by_half l).length = l.length / 2 := by
    intro n
    induction n with
    | zero =>
      intro l hl
      rw [List.length_eq_zero.mp (Nat.le_zero.mp hl)]
      simp [reduce_by_half]
    | succ k ih =>
      intro l hl
      cases l with
      | nil => simp [reduce_by_half]
      | cons a t =>
        cases t with
        | nil => simp [reduce_by_half]
        | cons b rest =>
          simp only [reduce_by_half, List.length_cons]
          rw [ih rest (by simp only [List.length_cons] at hl; omega)]
          omega
  exact key l.length l le_rfl

/-! ### The pruning scan of `__expand_window` -/

theorem pruneScan_nil (memb : ℕ × ℕ → Bool) (m s : ℕ) :
    pruneScan memb m [] s = [] := rfl

theorem pruneScan_cons_none (memb : ℕ × ℕ → Bool) (m i s : ℕ) (rest : List ℕ)
    (hh : ((List.range' s (m - s)).filter (fun j => memb (i, j))).head? = none) :
    pruneScan memb m (i :: rest) s =
      ((List.range' s (m - s)).filter (fun j => memb (i, j))).map (fun j => (i, j)) := by
  simp only [pruneScan]
  rw [hh]
  simp

theorem pruneScan_cons_some (memb : ℕ × ℕ → Bool) (m i s : ℕ) (rest : List ℕ) (j0 : ℕ)
    (hh : ((List.range' s (m - s)).filter (fun j => memb (i, j))).head? = some j0) :
    pruneScan memb m (i :: rest) s =
      ((List.range' s (m - s)).filter (fun j => memb (i, j))).map (fun j => (i, j)) ++
        pruneScan memb m rest j0 := by
  simp only [pruneScan]
  rw [hh]

theorem pruneScan_mem_row (memb : ℕ × ℕ → Bool) (m : ℕ) :
    ∀ (rows : List ℕ) (s : ℕ) (c : ℕ × ℕ), c ∈ pruneScan memb m rows s → c.1 ∈ rows := by
  intro rows
  induction rows with
  | nil => intro s c hc; rw [pruneScan_nil] at hc; simp at hc
  | cons i rest ih =>
    intro s c hc
    rcases hh : ((List.range' s (m - s)).filter (fun j => memb (i, j))).head? with _ | j0
    · rw [pruneScan_cons_none memb m i s rest hh, List.mem_map] at hc
      obtain ⟨j, -, rfl⟩ := hc
      exact List.mem_cons_self _ _
    · rw [pruneScan_cons_some memb m i s rest j0 hh, List.mem_append] at hc
      rcases hc with hc | hc
      · rw [List.mem_map] at hc
        obtain ⟨j, -, rfl⟩ := hc
        exact List.mem_cons_self _ _
      · exact List.mem_cons_of_mem _ (ih j0 c hc)

theorem pruneScan_pairwise (memb : ℕ × ℕ → Bool) (m : ℕ) :
    ∀ (rows : List ℕ) (s : ℕ), rows.Pairwise (· < ·) →
      (pruneScan memb m rows s).Pairwise rowLt := by
  intro rows
  induction rows with
  | nil => intro s _; rw [pruneScan_nil]; exact List.Pairwise.nil
  | cons i rest ih =>
    intro s hp
    rw [List.pairwise_cons] at hp
    have hrowPw : (((List.range' s (m - s)).filter (fun j => memb (i, j))).map
        (fun j => ((i, j) : ℕ × ℕ))).Pairwise rowLt := by
      rw [List.pairwise_map]
      exact ((List.pairwise_lt_range' s (m - s)).filter _).imp (fun hlt => Or.inr ⟨rfl, hlt⟩)
    rcases hh : ((List.range' s (m - s)).filter (fun j => memb (i, j))).head? with _ | j0
    · rw [pruneScan_cons_none memb m i s rest hh]
      exact hrowPw
    · rw [pruneScan_cons_some memb m i s rest j0 hh, List.pairwise_append]
      refine ⟨hrowPw, ih j0 hp.2, ?_⟩
      intro x hx y hy
      rw [List.mem_map] at hx
      obtain ⟨j, -, rfl⟩ := hx
      exact Or.inl (hp.1 _ (pruneScan_mem_row memb m rest j0 y hy))

theorem filter_sorted_head_le (s k : ℕ) (p : ℕ → Bool) (j0 : ℕ)
    (hh : ((List.range' s k).filter p).head? = some j0) :
    ∀ x ∈ (List.range' s k).filter p, j0 ≤ x := by
  have hp : ((List.range' s k).filter p).Pairwise (· < ·) :=
    (List.pairwise_lt_range' s k).filter p
  obtain ⟨t, ht⟩ : ∃ t, (List.range' s k).filter p = j0 :: t := by
    cases hfe : (List.range' s k).filter p with
    | nil => rw [hfe] at hh; simp at hh
    | cons a t =>
      rw [hfe] at hh
      rw [List.head?_cons, Option.some_inj] at hh
      exact ⟨t, by rw [hh]⟩
  rw [ht] at hp ⊢
  intro x hx
  rcases List.mem_cons.mp hx with rfl | hx
  · exact le_rfl
  · exact le_of_lt ((List.pairwise_cons.mp hp).1 x hx)

theorem pruneScan_first_row (memb : ℕ × ℕ → Bool) (m r s j k : ℕ) (hk : 0 < k)
    (hmemb : memb (r, j) = true) (hsj : s ≤ j) (hjm : j < m) :
    (r, j) ∈ pruneScan memb m (List.range' r k) s := by
  obtain ⟨k', rfl⟩ := Nat.exists_eq_succ_of_ne_zero (Nat.pos_iff_ne_zero.mp hk)
  rw [List.range'_succ]
  have hjmem : j ∈ (List.range' s (m - s)).filter (fun j' => memb (r, j')) := by
    rw [List.mem_filter, List.mem_range'_1]
    exact ⟨⟨hsj, by omega⟩, hmemb⟩
  rcases hh : ((List.range' s (m - s)).filter (fun j' => memb (r, j'))).head? with _ | j0
  · rw [List.head?_eq_none_iff] at hh
    rw [hh] at hjmem
    simp at hjmem
  · rw [pruneScan_cons_some memb m r s _ j0 hh]
    exact List.mem_append_left _ (List.mem_map.mpr ⟨j, hjmem, rfl⟩)

theorem pruneScan_chain (memb : ℕ × ℕ → Bool) (m : ℕ) :
    ∀ (ch : List (ℕ × ℕ)) (a : ℕ × ℕ) (k r s : ℕ),
      List.Chain StairStep a ch →
      (∀ c ∈ a :: ch, memb c = true ∧ c.2 < m) →
      ((a :: ch).getLast (List.cons_ne_nil _ _)).1 < r + k →
      a.1 = r → s ≤ a.2 →
      ∀ c ∈ a :: ch, c ∈ pruneScan memb m (List.range' r k) s := by
  intro ch
  induction ch with
  | nil =>
    intro a k r s _ hmemb hlast har hs c hc
    rw [List.mem_singleton] at hc
    subst hc
    rw [List.getLast_singleton] at hlast
    have hm1 := hmemb c (by simp)
    have hk : 0 < k := by omega
    have hpa : (r, c.2) = c := by rw [← har]
    have := pruneScan_first_row memb m r s c.2 k hk (by rw [hpa]; exact hm1.1) hs hm1.2
    rwa [hpa] at this
  | cons b ch' ih =>
    intro a k r s hch hmemb hlast har hs c hc
    rw [List.chain_cons] at hch
    have hlast' : ((b :: ch').getLast (List.cons_ne_nil _ _)).1 < r + k := by
      rwa [List.getLast_cons (List.cons_ne_nil _ _)] at hlast
    have hk : 0 < k := by
      have hmem := List.getLast_mem (List.cons_ne_nil b ch')
      have := stair_chain_le (b :: ch') a (List.chain_cons.mpr hch) _ hmem
      omega
    have hma := hmemb a (by simp)
    have hpa : (r, a.2) = a := by rw [← har]
    by_cases hrow : b.1 = a.1
    · have hb2 : b.2 = a.2 + 1 := by
        rcases hch.1 with ⟨h1, h2⟩ | ⟨h1, h2⟩ | ⟨h1, h2⟩ <;> omega
      rcases List.mem_cons.mp hc with rfl | hc
      · have := pruneScan_first_row memb m r s c.2 k hk (by rw [hpa]; exact hma.1) hs hma.2
        rwa [hpa] at this
      · exact ih b k r s hch.2 (fun x hx => hmemb x (List.mem_cons_of_mem a hx)) hlast'
          (by omega) (by omega) c hc
    · have hb1 : b.1 = a.1 + 1 := by
        rcases hch.1 with ⟨h1, h2⟩ | ⟨h1, h2⟩ | ⟨h1, h2⟩ <;> omega
      have hb2 : a.2 ≤ b.2 := by
        rcases hch.1 with ⟨h1, h2⟩ | ⟨h1, h2⟩ | ⟨h1, h2⟩ <;> omega
      obtain ⟨k', rfl⟩ := Nat.exists_eq_succ_of_ne_zero (Nat.pos_iff_ne_zero.mp hk)
      rw [List.range'_succ]
      have hjmem : a.2 ∈ (List.range' s (m - s)).filter (fun j' => memb (r, j')) := by
        rw [List.mem_filter, List.mem_range'_1]
        refine ⟨⟨hs, by omega⟩, by rw [hpa]; exact hma.1⟩
      rcases hh : ((List.range' s (m - s)).filter (fun j' => memb (r, j'))).head? with _ | j0
      · rw [List.head?_eq_none_iff] at hh
        rw [hh] at hjmem
        simp at hjmem
      · have hj0 : j0 ≤ a.2 := filter_sorted_head_le s (m - s) _ j0 hh a.2 hjmem
        rw [pruneScan_cons_some memb m r s _ j0 hh]
        rcases List.mem_cons.mp hc with rfl | hc
        · exact List.mem_append_left _ (List.mem_map.mpr ⟨c.2, hjmem, hpa⟩)
        · refine List.mem_append_right _ ?_
          exact ih b k' (r + 1) j0 hch.2 (fun x hx => hmemb x (List.mem_cons_of_mem a hx))
            (by omega) (by omega) (by omega) c hc

/-! ### The fine staircase through an expanded window -/

theorem getLast_opt_cons_ne {α : Type*} (a : α) (l : List α) (h : l ≠ []) :
    (a :: l).getLast? = l.getLast? := by
  cases l with
  | nil => exact absurd rfl h
  | cons b t => rw [List.getLast?_cons_cons]

theorem mem_of_getLast_opt {α : Type*} (l : List α) (a : α) (h : l.getLast? = some a) :
    a ∈ l := by
  have hne : l ≠ [] := by intro h0; rw [h0] at h; simp at h
  rw [List.getLast?_eq_getLast l hne, Option.some_inj] at h
  exact h ▸ List.getLast_mem hne

theorem stepCells_ne_nil (c c' : ℕ × ℕ) : stepCells c c' ≠ [] := by
  simp only [stepCells]
  split_ifs <;> simp

theorem stepCells_spec (c c' : ℕ × ℕ) (h : StairStep c c') :
    List.Chain' StairStep ((2 * c.1 + 1, 2 * c.2 + 1) :: stepCells c c')
    ∧ (stepCells c c').getLast? = some (2 * c'.1 + 1, 2 * c'.2 + 1)
    ∧ ∀ x ∈ stepCells c c',
        x ∈ blockCells [c'] ∧ x.1 ≤ 2 * c'.1 + 1 ∧ x.2 ≤ 2 * c'.2 + 1 := by
  rcases h with ⟨h1, h2⟩ | ⟨h1, h2⟩ | ⟨h1, h2⟩
  · -- column step: c' = (c.1 + 1, c.2)
    simp only [stepCells]
    rw [if_neg (by omega), if_pos h2]
    refine ⟨?_, ?_, ?_⟩
    · exact List.Chain'.cons (Or.inl ⟨by omega, by omega⟩)
        (List.Chain'.cons (Or.inl ⟨by omega, by omega⟩) (List.chain'_singleton _))
    · rw [List.getLast?_cons_cons, List.getLast?_singleton, Option.some_inj, Prod.mk.injEq]
      omega
    · intro x hx
      rcases List.mem_cons.mp hx with rfl | hx
      · exact ⟨by simp [blockCells, Prod.ext_iff]; omega, by simp; omega, by simp; omega⟩
      · rw [List.mem_singleton] at hx
        subst hx
        exact ⟨by simp [blockCells, Prod.ext_iff]; omega, by simp; omega, by simp; omega⟩
  · -- row step: c' = (c.1, c.2 + 1)
    simp only [stepCells]
    rw [if_pos h1]
    refine ⟨?_, ?_, ?_⟩
    · exact List.Chain'.cons (Or.inr (Or.inl ⟨by omega, by omega⟩))
        (List.Chain'.cons (Or.inr (Or.inl ⟨by omega, by omega⟩)) (List.chain'_singleton _))
    · rw [List.getLast?_cons_cons, List.getLast?_singleton, Option.some_inj, Prod.mk.injEq]
      omega
    · intro x hx
      rcases List.mem_cons.mp hx with rfl | hx
      · exact ⟨by simp [blockCells, Prod.ext_iff]; omega, by simp; omega, by simp; omega⟩
      · rw [List.mem_singleton] at hx
        subst hx
        exact ⟨by simp [blockCells, Prod.ext_iff]; omega, by simp; omega, by simp; omega⟩
  · -- diagonal step: c' = (c.1 + 1, c.2 + 1)
    simp only [stepCells]
    rw [if_neg (by omega), if_neg (by omega)]
    refine ⟨?_, ?_, ?_⟩
    · exact List.Chain'.cons (Or.inr (Or.inr ⟨by omega, by omega⟩))
        (List.Chain'.cons (Or.inr (Or.inr ⟨by omega, by omega⟩)) (List.chain'_singleton _))
    · rw [List.getLast?_cons_cons, List.getLast?_singleton, Option.some_inj, Prod.mk.injEq]
      omega
    · intro x hx
      rcases List.mem_cons.mp hx with rfl | hx
      · exact ⟨by simp [blockCells, Prod.ext_iff]; omega, by simp; omega, by simp; omega⟩
      · rw [List.mem_singleton] at hx
        subst hx
        exact ⟨by simp [blockCells, Prod.ext_iff]; omega, by simp; omega, by simp; omega⟩

theorem fineChain_ne_nil (c d : ℕ × ℕ) (r : List (ℕ × ℕ)) : fineChain c (d :: r) ≠ [] := by
  show stepCells c d ++ fineChain d r ≠ []
  simp [stepCells_ne_nil]

theorem fineChain_spec : ∀ (rest : List (ℕ × ℕ)) (c : ℕ × ℕ), List.Chain StairStep c rest →
    List.Chain' StairStep ((2 * c.1 + 1, 2 * c.2 + 1) :: fineChain c rest)
    ∧ ((2 * c.1 + 1, 2 * c.2 + 1) :: fineChain c rest).getLast? =
        ((c :: rest).getLast?).map (fun l => (2 * l.1 + 1, 2 * l.2 + 1))
    ∧ ∀ x ∈ fineChain c rest,
        ∃ d ∈ rest, x ∈ blockCells [d] ∧ x.1 ≤ 2 * d.1 + 1 ∧ x.2 ≤ 2 * d.2 + 1 := by
  intro rest
  induction rest with
  | nil =>
    intro c _
    refine ⟨List.chain'_singleton _, by simp [fineChain], ?_⟩
    intro x hx
    simp [fineChain] at hx
  | cons c' rest' ih =>
    intro c hch
    rw [List.chain_cons] at hch
    obtain ⟨ihc, ihl, ihm⟩ := ih c' hch.2
    obtain ⟨sc, sl, sm⟩ := stepCells_spec c c' hch.1
    have hfc : fineChain c (c' :: rest') = stepCells c c' ++ fineChain c' rest' := rfl
    have hsne : stepCells c c' ≠ [] := stepCells_ne_nil c c'
    refine ⟨?_, ?_, ?_⟩
    · rw [hfc, ← List.cons_append, List.chain'_append]
      refine ⟨sc, (List.chain'_cons'.mp ihc).2, ?_⟩
      intro x hx y hy
      rw [getLast_opt_cons_ne _ _ hsne, sl, Option.mem_def, Option.some_inj] at hx
      subst hx
      exact (List.chain'_cons'.mp ihc).1 y hy
    · rw [hfc]
      cases hfe : fineChain c' rest' with
      | nil =>
        cases rest' with
        | nil =>
          rw [List.append_nil, getLast_opt_cons_ne _ _ hsne, sl]
          simp
        | cons d r => exact absurd hfe (fineChain_ne_nil c' d r)
      | cons z t =>
        rw [hfe] at ihl
        rw [← List.cons_append, List.getLast?_append_of_ne_nil _ (by simp),
          ← getLast_opt_cons_ne ((2 * c'.1 + 1, 2 * c'.2 + 1)) (z :: t) (by simp), ihl,
          List.getLast?_cons_cons]
    · rw [hfc]
      intro x hx
      rcases List.mem_append.mp hx with hx | hx
      · obtain ⟨hmem, hb1, hb2⟩ := sm x hx
        exact ⟨c', List.mem_cons_self _ _, hmem, hb1, hb2⟩
      · obtain ⟨d, hd, hrest⟩ := ihm x hx
        exact ⟨d, List.mem_cons_of_mem _ hd, hrest⟩

theorem blockCells_mem_mono (d : ℕ × ℕ) (cells : List (ℕ × ℕ)) (hd : d ∈ cells)
    (x : ℕ × ℕ) (hx : x ∈ blockCells [d]) : x ∈ blockCells cells := by
  rw [blockCells, List.mem_flatMap] at hx ⊢
  obtain ⟨e, he, hxe⟩ := hx
  rw [List.mem_singleton] at he
  subst he
  exact ⟨e, hd, hxe⟩

theorem mem_pathNeighborhood_self (r : ℕ) (pth : List (ℕ × ℕ)) (c : ℕ × ℕ) (hc : c ∈ pth) :
    c ∈ pathNeighborhood r pth := by
  show c ∈ pth ++ pth.flatMap (neighborCells r)
  exact List.mem_append_left _ hc

theorem mem_pathNeighborhood_nb (r : ℕ) (pth : List (ℕ × ℕ)) (c x : ℕ × ℕ) (hc : c ∈ pth)
    (hx : x ∈ neighborCells r c) : x ∈ pathNeighborhood r pth := by
  show x ∈ pth ++ pth.flatMap (neighborCells r)
  exact List.mem_append_right _ (List.mem_flatMap.mpr ⟨c, hc, hx⟩)

theorem fineOf_spec (pth : List (ℕ × ℕ)) (n m nc mc : ℕ)
    (hch : List.Chain' StairStep pth)
    (hhd : pth.head? = some (0, 0))
    (hlast : pth.getLast? = some (nc - 1, mc - 1))
    (hnc : 1 ≤ nc) (hmc : 1 ≤ mc)
    (hn : n = 2 * nc ∨ n = 2 * nc + 1) (hm : m = 2 * mc ∨ m = 2 * mc + 1)
    (hbnd : ∀ c ∈ pth, c.1 ≤ nc - 1 ∧ c.2 ≤ mc - 1) :
    (fineOf pth n m).head? = some (0, 0)
    ∧ List.Chain' StairStep (fineOf pth n m)
    ∧ (fineOf pth n m).getLast? = some (n - 1, m - 1)
    ∧ ∀ x ∈ fineOf pth n m,
        x ∈ blockCells (pathNeighborhood 1 pth) ∧ x.1 ≤ n - 1 ∧ x.2 ≤ m - 1 := by
  obtain ⟨c0, rest, rfl⟩ : ∃ c0 rest, pth = c0 :: rest := by
    cases pth with
    | nil => simp at hhd
    | cons a t => exact ⟨a, t, rfl⟩
  rw [List.head?_cons, Option.some_inj] at hhd
  subst hhd
  obtain ⟨fc0, fl0, fm⟩ := fineChain_spec rest (0, 0) hch
  have fc : List.Chain' StairStep ((1, 1) :: fineChain (0, 0) rest) := fc0
  have fl : ((1, 1) :: fineChain (0, 0) rest).getLast? =
      Option.map (fun l => (2 * l.1 + 1, 2 * l.2 + 1)) (((0, 0) :: rest).getLast?) := fl0
  have hlastrest : ((0, 0) :: rest).getLast? = some (nc - 1, mc - 1) := hlast
  have fl2 : ((1, 1) :: fineChain (0, 0) rest).getLast? =
      some (2 * (nc - 1) + 1, 2 * (mc - 1) + 1) := by
    rw [fl, hlastrest]
    rfl
  have hfeq : fineOf ((0, 0) :: rest) n m =
      (0, 0) :: (1, 1) :: (fineChain (0, 0) rest ++
        (if n % 2 = 1 ∨ m % 2 = 1 then [(n - 1, m - 1)] else [])) := rfl
  have hlmem : ((nc - 1, mc - 1) : ℕ × ℕ) ∈ (0, 0) :: rest :=
    mem_of_getLast_opt _ _ hlastrest
  have hmem00 : ∀ x : ℕ × ℕ, x = (0, 0) ∨ x = (1, 1) →
      x ∈ blockCells (pathNeighborhood 1 ((0, 0) :: rest)) ∧ x.1 ≤ n - 1 ∧ x.2 ≤ m - 1 := by
    intro x hx
    refine ⟨blockCells_mem_mono (0, 0) _
      (mem_pathNeighborhood_self 1 _ _ (List.mem_cons_self _ _)) x ?_, ?_, ?_⟩
    · rcases hx with rfl | rfl <;> simp [blockCells]
    · rcases hx with rfl | rfl
      · exact Nat.zero_le _
      · show 1 ≤ n - 1
        rcases hn with rfl | rfl <;> omega
    · rcases hx with rfl | rfl
      · exact Nat.zero_le _
      · show 1 ≤ m - 1
        rcases hm with rfl | rfl <;> omega
  have hmemfine : ∀ x ∈ fineChain (0, 0) rest,
      x ∈ blockCells (pathNeighborhood 1 ((0, 0) :: rest)) ∧ x.1 ≤ n - 1 ∧ x.2 ≤ m - 1 := by
    intro x hx
    obtain ⟨d, hd, hbl, h1, h2⟩ := fm x hx
    have hdb := hbnd d (List.mem_cons_of_mem _ hd)
    refine ⟨blockCells_mem_mono d _
      (mem_pathNeighborhood_self 1 _ _ (List.mem_cons_of_mem _ hd)) x hbl, ?_, ?_⟩
    · rcases hn with rfl | rfl <;> omega
    · rcases hm with rfl | rfl <;> omega
  by_cases hpar : n % 2 = 1 ∨ m % 2 = 1
  · have hlink : StairStep (2 * (nc - 1) + 1, 2 * (mc - 1) + 1) (n - 1, m - 1) := by
      rcases hn with rfl | rfl <;> rcases hm with rfl | rfl
      · exact absurd hpar (by omega)
      · exact Or.inr (Or.inl ⟨by omega, by omega⟩)
      · exact Or.inl ⟨by omega, by omega⟩
      · exact Or.inr (Or.inr ⟨by omega, by omega⟩)
    have hextmem : ((n - 1, m - 1) : ℕ × ℕ) ∈ blockCells (pathNeighborhood 1 ((0, 0) :: rest))
        ∧ (n - 1 : ℕ) ≤ n - 1 ∧ (m - 1 : ℕ) ≤ m - 1 := by
      refine ⟨?_, le_rfl, le_rfl⟩
      rcases hn with rfl | rfl <;> rcases hm with rfl | rfl
      · exact absurd hpar (by omega)
      · refine blockCells_mem_mono (nc - 1, mc) _
          (mem_pathNeighborhood_nb 1 _ (nc - 1, mc - 1) (nc - 1, mc) hlmem ?_) _ ?_
        · simp only [neighborCells, List.mem_flatMap, List.mem_map, List.mem_range]
          refine ⟨1, by omega, 2, by omega, ?_⟩
          show ((nc - 1) + 1 - 1, (mc - 1) + 2 - 1) = (nc - 1, mc)
          rw [Prod.mk.injEq]
          omega
        · simp [blockCells, Prod.ext_iff] <;> omega
      · refine blockCells_mem_mono (nc, mc - 1) _
          (mem_pathNeighborhood_nb 1 _ (nc - 1, mc - 1) (nc, mc - 1) hlmem ?_) _ ?_
        · simp only [neighborCells, List.mem_flatMap, List.mem_map, List.mem_range]
          refine ⟨2, by omega, 1, by omega, ?_⟩
          show ((nc - 1) + 2 - 1, (mc - 1) + 1 - 1) = (nc, mc - 1)
          rw [Prod.mk.injEq]
          omega
        · simp [blockCells, Prod.ext_iff] <;> omega
      · refine blockCells_mem_mono (nc, mc) _
          (mem_pathNeighborhood_nb 1 _ (nc - 1, mc - 1) (nc, mc) hlmem ?_) _ ?_
        · simp only [neighborCells, List.mem_flatMap, List.mem_map, List.mem_range]
          refine ⟨2, by omega, 2, by omega, ?_⟩
          show ((nc - 1) + 2 - 1, (mc - 1) + 2 - 1) = (nc, mc)
          rw [Prod.mk.injEq]
          omega
        · simp [blockCells, Prod.ext_iff] <;> omega
    refine ⟨by rw [hfeq, if_pos hpar]; rfl, ?_, ?_, ?_⟩
    · rw [hfeq, if_pos hpar]
      refine List.Chain'.cons (Or.inr (Or.inr ⟨rfl, rfl⟩)) ?_
      rw [← List.cons_append, List.chain'_append]
      refine ⟨fc, List.chain'_singleton _, ?_⟩
      intro x hx y hy
      rw [fl2, Option.mem_def, Option.some_inj] at hx
      rw [List.head?_cons, Option.mem_def, Option.some_inj] at hy
      subst hx
      subst hy
      exact hlink
    · rw [hfeq, if_pos hpar,
        show ((0, 0) :: (1, 1) :: (fineChain (0, 0) rest ++ [((n : ℕ) - 1, (m : ℕ) - 1)])) =
          ((0, 0) :: (1, 1) :: fineChain (0, 0) rest) ++ [(n - 1, m - 1)] by simp,
        List.getLast?_concat]
    · rw [hfeq, if_pos hpar]
      intro x hx
      rcases List.mem_cons.mp hx with rfl | hx
      · exact hmem00 _ (Or.inl rfl)
      rcases List.mem_cons.mp hx with rfl | hx
      · exact hmem00 _ (Or.inr rfl)
      rcases List.mem_append.mp hx with hx | hx
      · exact hmemfine x hx
      · rw [List.mem_singleton] at hx
        subst hx
        exact hextmem
  · have heven : n = 2 * nc ∧ m = 2 * mc := by
      rcases hn with rfl | rfl <;> rcases hm with rfl | rfl
      · exact ⟨rfl, rfl⟩
      · exact absurd (Or.inr (by omega)) hpar
      · exact absurd (Or.inl (by omega)) hpar
      · exact absurd (Or.inl (by omega)) hpar
    refine ⟨by rw [hfeq, if_neg hpar]; rfl, ?_, ?_, ?_⟩
    · rw [hfeq, if_neg hpar, List.append_nil]
      exact List.Chain'.cons (Or.inr (Or.inr ⟨rfl, rfl⟩)) fc
    · rw [hfeq, if_neg hpar, List.append_nil,
        getLast_opt_cons_ne ((0 : ℕ), (0 : ℕ)) _ (by simp), fl2,
        Option.some_inj, Prod.mk.injEq]
      omega
    · rw [hfeq, if_neg hpar, List.append_nil]
      intro x hx
      rcases List.mem_cons.mp hx with rfl | hx
      · exact hmem00 _ (Or.inl rfl)
      rcases List.mem_cons.mp hx with rfl | hx
      · exact hmem00 _ (Or.inr rfl)
      · exact hmemfine x hx

/-! ### The `__fastdtw` recursion -/

theorem fastdtwRec_unfold (x y : List ℚ) (dist : ℚ → ℚ → WithTop ℝ) :
    fastdtwRec x y 1 dist =
      if x.length < 1 + 2 ∨ y.length < 1 + 2 then
        dtwLow x.length y.length none (fun i j => dist (x.getD i 0) (y.getD j 0))
      else
        dtwLow x.length y.length
          (some (expand_window (fastdtwRec (reduce_by_half x) (reduce_by_half y) 1 dist).2
            x.length y.length 1))
          (fun i j => dist (x.getD i 0) (y.getD j 0)) := by
  rw [fastdtwRec.eq_def]
  by_cases hsm : x.length < 1 + 2 ∨ y.length < 1 + 2
  · rw [dif_pos hsm, if_pos hsm]
  · rw [dif_neg hsm, if_neg hsm]

theorem fastdtwRec_spec (dist : ℚ → ℚ → WithTop ℝ) (hfin : ∀ a b, dist a b ≠ ⊤) :
    ∀ (N : ℕ) (x y : List ℚ), x.length ≤ N → x ≠ [] → y ≠ [] →
      ∃ pth, fastdtwRec x y 1 dist =
        ((pth.map (fun c => dist (x.getD c.1 0) (y.getD c.2 0))).sum, pth)
        ∧ pth ≠ []
        ∧ pth.head? = some (0, 0)
        ∧ pth.getLast? = some (x.length - 1, y.length - 1)
        ∧ List.Chain' StairStep pth
        ∧ ∀ c ∈ pth, c.1 ≤ x.length - 1 ∧ c.2 ≤ y.length - 1 := by
  intro N
  induction N with
  | zero =>
    intro x y hlen hx _
    exact absurd (List.length_eq_zero.mp (Nat.le_zero.mp hlen)) hx
  | succ N ih =>
    intro x y hlen hx hy
    have hn1 : 0 < x.length := List.length_pos.mpr hx
    have hm1 : 0 < y.length := List.length_pos.mpr hy
    by_cases hsmall : x.length < 1 + 2 ∨ y.length < 1 + 2
    · -- base case of the recursion: full window
      obtain ⟨lrest, hld⟩ : ∃ t, lChain x.length y.length = (0, 0) :: t := by
        have := lChain_head x.length y.length hm1
        cases hlc : lChain x.length y.length with
        | nil => rw [hlc] at this; simp at this
        | cons a t =>
          rw [hlc, List.head?_cons, Option.some_inj] at this
          exact ⟨t, by rw [this]⟩
      have hlch : List.Chain StairStep (0, 0) lrest := by
        have := lChain_chain x.length y.length
        rw [hld] at this
        exact this
      have hlend : (((0, 0) :: lrest).getLast (List.cons_ne_nil _ _)) =
          (x.length - 1, y.length - 1) := by
        have := lChain_getLast x.length y.length hn1 hm1
        rw [hld, List.getLast?_eq_getLast _ (List.cons_ne_nil _ _), Option.some_inj] at this
        exact this
      obtain ⟨pth, heq, hne, hhd, hgl, hch, hbnd⟩ :=
        dtwLow_spec (fun i j => dist (x.getD i 0) (y.getD j 0)) x.length y.length none
          hn1 hm1 (fullWindow_pairwise x.length y.length) (fun i j => hfin _ _)
          lrest hlch
          (fun c hc => (mem_fullWindow _ _ c).mpr
            (lChain_mem x.length y.length hn1 hm1 c (by rw [hld]; exact List.mem_cons_of_mem _ hc)))
          ((mem_fullWindow _ _ _).mpr ⟨hn1, hm1⟩)
          hlend
      refine ⟨pth, ?_, hne, hhd, hgl, hch, hbnd⟩
      rw [fastdtwRec_unfold, if_pos hsmall]
      exact heq
    · -- recursive case: expanded window around the coarse path
      push_neg at hsmall
      have hx3 : 3 ≤ x.length := hsmall.1
      have hy3 : 3 ≤ y.length := hsmall.2
      have hxl := reduce_by_half_length x
      have hyl := reduce_by_half_length y
      have hxne : reduce_by_half x ≠ [] := by
        intro h0
        rw [h0] at hxl
        simp at hxl
        omega
      have hyne : reduce_by_half y ≠ [] := by
        intro h0
        rw [h0] at hyl
        simp at hyl
        omega
      obtain ⟨pth0, hq0, hne0, hhd0, hl0, hch0, hbnd0⟩ :=
        ih (reduce_by_half x) (reduce_by_half y) (by omega) hxne hyne
      have hw2 : (fastdtwRec (reduce_by_half x) (reduce_by_half y) 1 dist).2 = pth0 := by
        rw [hq0]
      have hnc1 : 1 ≤ (reduce_by_half x).length := by omega
      have hmc1 : 1 ≤ (reduce_by_half y).length := by omega
      obtain ⟨fhd, fch, flast, fmem⟩ :=
        fineOf_spec pth0 x.length y.length (reduce_by_half x).length (reduce_by_half y).length
          hch0 hhd0 hl0 hnc1 hmc1 (by omega) (by omega) hbnd0
      obtain ⟨ftail, hfeq2⟩ : ∃ t, fineOf pth0 x.length y.length = (0, 0) :: t := by
        cases hfc : fineOf pth0 x.length y.length with
        | nil => rw [hfc] at fhd; simp at fhd
        | cons a t =>
          rw [hfc, List.head?_cons, Option.some_inj] at fhd
          exact ⟨t, by rw [fhd]⟩
      rw [hfeq2] at fch flast fmem
      have hfch : List.Chain StairStep (0, 0) ftail := fch
      have hflg : (((0, 0) :: ftail).getLast (List.cons_ne_nil _ _)) =
          (x.length - 1, y.length - 1) := by
        rw [List.getLast?_eq_getLast _ (List.cons_ne_nil _ _), Option.some_inj] at flast
        exact flast
      have hkeep : ∀ c ∈ (0, 0) :: ftail,
          c ∈ expand_window pth0 x.length y.length 1 := by
        have hew : expand_window pth0 x.length y.length 1 =
            pruneScan (fun c => (blockCells (pathNeighborhood 1 pth0)).contains c)
              y.length (List.range x.length) 0 := rfl
        rw [hew, List.range_eq_range']
        refine pruneScan_chain _ _ ftail (0, 0) x.length 0 0 hfch ?_ ?_ rfl (Nat.zero_le _)
        · intro c hc
          obtain ⟨hbl, _, hc2⟩ := fmem c hc
          exact ⟨List.elem_iff.mpr hbl, by omega⟩
        · rw [hflg]
          show x.length - 1 < 0 + x.length
          omega
      obtain ⟨pth, heq, hne, hhd, hgl, hch, hbnd⟩ :=
        dtwLow_spec (fun i j => dist (x.getD i 0) (y.getD j 0)) x.length y.length
          (some (expand_window pth0 x.length y.length 1)) hn1 hm1
          (by
            show (expand_window pth0 x.length y.length 1).Pairwise rowLt
            have hew : expand_window pth0 x.length y.length 1 =
                pruneScan (fun c => (blockCells (pathNeighborhood 1 pth0)).contains c)
                  y.length (List.range x.length) 0 := rfl
            rw [hew]
            exact pruneScan_pairwise _ _ _ 0 (List.pairwise_lt_range _))
          (fun i j => hfin _ _)
          ftail hfch
          (fun c hc => hkeep c (List.mem_cons_of_mem _ hc))
          (hkeep (0, 0) (List.mem_cons_self _ _))
          hflg
      refine ⟨pth, ?_, hne, hhd, hgl, hch, hbnd⟩
      rw [fastdtwRec_unfold, if_neg (by push_neg; exact ⟨hx3, hy3⟩), hw2]
      exact heq

/-- **C5**: for sequences of lengths `n` and `m`, `dtw_distance` returns
distance `+∞` and an empty path when either sequence is empty; otherwise the
returned alignment path starts at `(0, 0)`, ends at `(n - 1, m - 1)`, advances
`i` and/or `j` by exactly one at each step (indices never decrease, no
endpoint is skipped), and the returned distance is the sum of the event cost
`event_distance` over the path's index pairs. -/
theorem dtw_distance_path_spec (seq1 seq2 : List FeatureRec) (config : Config) :
    ((seq1 = [] ∨ seq2 = []) → dtw_distance seq1 seq2 config = (⊤, [])) ∧
    (seq1 ≠ [] → seq2 ≠ [] → ∃ pth,
      dtw_distance seq1 seq2 config =
        ((pth.map (fun c => event_distance (seq1.getD c.1 default)
            (seq2.getD c.2 default) config)).sum, pth)
        ∧ pth ≠ []
        ∧ pth.head? = some (0, 0)
        ∧ pth.getLast? = some (seq1.length - 1, seq2.length - 1)
        ∧ List.Chain' StairStep pth
        ∧ ∀ c ∈ pth, c.1 ≤ seq1.length - 1 ∧ c.2 ≤ seq2.length - 1) := by
  constructor
  · intro h
    rw [dtw_distance, if_pos h]
  · intro h1 h2
    have hp1 : 0 < seq1.length := List.length_pos.mpr h1
    have hp2 : 0 < seq2.length := List.length_pos.mpr h2
    rw [dtw_distance, if_neg (by push_neg; exact ⟨h1, h2⟩)]
    set x := (List.range seq1.length).map (fun i => ((i : ℕ) : ℚ)) with hxdef
    set y := (List.range seq2.length).map (fun j => ((j : ℕ) : ℚ)) with hydef
    have hxlen : x.length = seq1.length := by
      rw [hxdef, List.length_map, List.length_range]
    have hylen : y.length = seq2.length := by
      rw [hydef, List.length_map, List.length_range]
    have hxe : x ≠ [] := by
      rw [← List.length_pos, hxlen]
      exact hp1
    have hye : y ≠ [] := by
      rw [← List.length_pos, hylen]
      exact hp2
    obtain ⟨pth, heq, hne, hhd, hgl, hch, hbnd⟩ :=
      fastdtwRec_spec (fun a b => event_distance (seq1.getD (Int.floor a).toNat default)
          (seq2.getD (Int.floor b).toNat default) config)
        (fun a b => event_distance_ne_top _ _ _) x.length x y le_rfl hxe hye
    refine ⟨pth, ?_, hne, hhd, by rw [← hxlen, ← hylen]; exact hgl, hch,
      by rw [← hxlen, ← hylen]; exact hbnd⟩
    rw [heq, Prod.mk.injEq]
    refine ⟨?_, rfl⟩
    congr 1
    apply List.map_congr_left
    intro c hc
    have hb1 := (hbnd c hc).1
    have hb2 := (hbnd c hc).2
    have hc1 : c.1 < seq1.length := by omega
    have hc2 : c.2 < seq2.length := by omega
    have hxg : x.getD c.1 0 = (c.1 : ℚ) := by
      rw [hxdef, List.getD_eq_getElem _ _ (by rw [List.length_map, List.length_range]; exact hc1)]
      rw [List.getElem_map, List.getElem_range]
    have hyg : y.getD c.2 0 = (c.2 : ℚ) := by
      rw [hydef, List.getD_eq_getElem _ _ (by rw [List.length_map, List.length_range]; exact hc2)]
      rw [List.getElem_map, List.getElem_range]
    rw [hxg, hyg, Int.floor_natCast, Int.floor_natCast, Int.toNat_natCast, Int.toNat_natCast]

/-- Witness for C5: the empty/empty clause at `seq1 = []`, and the path clause
at the one-event pair `[default]`, `[default]`. -/
theorem dtw_distance_path_spec_witness :
    dtw_distance [] [default] OPTIONAL_FEATURES = (⊤, []) ∧
    (∃ pth, dtw_distance [default] [default] OPTIONAL_FEATURES =
        ((pth.map (fun c => event_distance (([default] : List FeatureRec).getD c.1 default)
            (([default] : List FeatureRec).getD c.2 default) OPTIONAL_FEATURES)).sum, pth)
      ∧ pth ≠ []
      ∧ pth.head? = some (0, 0)
      ∧ pth.getLast? = some (([default] : List FeatureRec).length - 1,
          ([default] : List FeatureRec).length - 1)
      ∧ List.Chain' StairStep pth
      ∧ ∀ c ∈ pth, c.1 ≤ ([default] : List FeatureRec).length - 1
          ∧ c.2 ≤ ([default] : List FeatureRec).length - 1) :=
  ⟨(dtw_distance_path_spec [] [default] OPTIONAL_FEATURES).1 (Or.inl rfl),
   (dtw_distance_path_spec [default] [default] OPTIONAL_FEATURES).2
     (List.cons_ne_nil _ _) (List.cons_ne_nil _ _)⟩

end DSPFIFA
